import Mathlib

/-!
A verification development for the `sniff` filesystem-snapshot tool.

The Rust sources are shallowly embedded: pure fragments become Lean
functions, the SQLite database becomes an explicit state record with the
statements of `database.rs` modelled as list operations, byte buffers
become `List Nat`, and `OsString` values (raw byte strings) are modelled
as `String`.  Machine integers that never overflow in the modelled paths
(sizes, ids, counters) are modelled as `Nat`/`Int`.
-/

namespace Sniff

/-! ## Timestamps (`src/timestamp.rs`) -/

/-- Models `Timestamp` from `timestamp.rs`: signed seconds since the Unix epoch plus
nanoseconds since the last full second (`secs : i64`, `nanos : u32`). -/
structure Timestamp where
  secs : Int
  nanos : Nat
  deriving DecidableEq, Repr

/-- The `Ord` implementation of `Timestamp`: compare `secs`, then `nanos`. -/
def Timestamp.cmp (a b : Timestamp) : Ordering :=
  match compare a.secs b.secs with
  | Ordering.eq => compare a.nanos b.nanos
  | order => order

/-- The `From<std::time::SystemTime>` conversion of `timestamp.rs`.

A `SystemTime` is modelled by its signed offset from the Unix epoch in whole
nanoseconds.  `duration_since(UNIX_EPOCH)` succeeds exactly when the offset is
non-negative; otherwise the code measures the duration in the opposite
direction and negates the seconds (but not the nanoseconds). -/
def timestampFromSystemNanos (t : Int) : Timestamp :=
  if 0 ≤ t then
    { secs := Int.ofNat (t.toNat / 1000000000), nanos := t.toNat % 1000000000 }
  else
    { secs := -Int.ofNat ((-t).toNat / 1000000000), nanos := (-t).toNat % 1000000000 }

/-! ## File content descriptors (`src/fs/file.rs`) -/

/-- The `FileFlags` bitset of `fs/file.rs` (one bit per text encoding). -/
structure FileFlags where
  utf8 : Bool
  utf16be : Bool
  utf16le : Bool
  utf32be : Bool
  utf32le : Bool
  deriving DecidableEq, Repr

/-- The `FileFlags::UTF_ENCODING` constant: all five encoding bits set. -/
def FileFlags.utfEncoding : FileFlags :=
  { utf8 := true, utf16be := true, utf16le := true, utf32be := true, utf32le := true }

/-- The `File` record of `fs/file.rs`.  Hashes and byte buffers are byte
lists; the `f32` entropy is never inspected by any modelled operation, so it
is carried as its raw bit pattern. -/
structure File where
  sha256 : List Nat
  md5 : List Nat
  firstBytes : List Nat
  flags : FileFlags
  entropyBits : Nat
  coffHeader : Option (List Nat)
  deriving DecidableEq, Repr

/-- The `Symlink` record of `fs/symlink.rs` (the stored target path). -/
structure Symlink where
  linkPath : String
  deriving DecidableEq, Repr

/-- The `DirEntryType` enum of `fs/dir_entry_type.rs`. -/
inductive DirEntryType where
  | file
  | symlink
  | directory
  | blockDevice
  | characterDevice
  | pipe
  | socket
  | unknown
  deriving DecidableEq, Repr

/-! ## Metadata (`src/fs/metadata.rs`) -/

/-- Models `AlternateDataStreams`: an ordered mapping from stream name to an
optional byte blob, modelled as an association list. -/
structure AlternateDataStreams where
  streams : List (String × Option (List Nat))
  deriving DecidableEq, Repr

/-- The current (version 2) `Metadata` record: everything except `size` is
optional.  NTFS attribute bits are carried as the raw `u32` value. -/
structure Metadata where
  size : Nat
  created : Option Timestamp
  modified : Option Timestamp
  accessed : Option Timestamp
  mftModified : Option Timestamp
  ntfsAttributes : Option Nat
  unixPermissions : Option Nat
  nlink : Option Nat
  uid : Option Nat
  gid : Option Nat
  reparseData : Option (List Nat)
  acl : Option (List Nat)
  dosName : Option (List Nat)
  objectId : Option (List Nat)
  efsInfo : Option (List Nat)
  ea : Option (List Nat)
  streams : Option AlternateDataStreams
  inode : Option Nat
  deriving DecidableEq, Repr

/-- Models `Metadata::meaningless()`: the placeholder used while building directory
trees before the real metadata is known. -/
def Metadata.meaningless : Metadata :=
  { size := 0, created := none, modified := none, accessed := none,
    mftModified := none, ntfsAttributes := none, unixPermissions := none,
    nlink := none, uid := none, gid := none, reparseData := none, acl := none,
    dosName := none, objectId := none, efsInfo := none, ea := none,
    streams := none, inode := none }

/-- The `MetadataV1` record (version 1 snapshots): all timestamp and NTFS
fields are mandatory and there are no UNIX fields. -/
structure MetadataV1 where
  size : Nat
  created : Timestamp
  modified : Timestamp
  accessed : Timestamp
  mftModified : Timestamp
  attributes : Nat
  reparseData : Option (List Nat)
  acl : Option (List Nat)
  dosName : Option (List Nat)
  objectId : Option (List Nat)
  efsInfo : Option (List Nat)
  ea : Option (List Nat)
  streams : AlternateDataStreams
  inode : Nat
  deriving DecidableEq, Repr

/-- The `From<MetadataV1> for Metadata` conversion: scalars are wrapped into
`Some`, the new UNIX fields default to `None`. -/
def metadataV1ToLatest (old : MetadataV1) : Metadata :=
  { size := old.size, created := some old.created, modified := some old.modified,
    accessed := some old.accessed, mftModified := some old.mftModified,
    ntfsAttributes := some old.attributes, unixPermissions := none,
    nlink := none, uid := none, gid := none, reparseData := old.reparseData,
    acl := old.acl, dosName := old.dosName, objectId := old.objectId,
    efsInfo := old.efsInfo, ea := old.ea, streams := some old.streams,
    inode := some old.inode }

/-! ## The generic filesystem tree (`src/fs.rs`, `src/fs/directory.rs`,
`src/fs/dir_entry.rs`)

`DirEntry<Metadata, File, Symlink, DirEntryType, Context>` and
`MetaDirEntry<DirEntry, Metadata, Context>` are generic in the source; the
embedding keeps that genericity.  A directory's `BTreeMap<OsString, _>` is
modelled as an association list of `(name, child)` pairs; trees built by the
modelled operations keep each map in its original order, and all modelled
lookups are key-based, so list order never influences a lookup. -/

mutual

inductive DEntry (M F S T C : Type) : Type where
  | file (f : F)
  | symlink (s : S)
  | directory (entries : List (String × MetaDirEntry M F S T C))
  | other (t : T)

inductive MetaDirEntry (M F S T C : Type) : Type where
  | mk (entry : DEntry M F S T C) (metadata : M) (context : C)

end

variable {M F S T C C' M' : Type}

/-- The `entry` field of `MetaDirEntry`. -/
def MetaDirEntry.entry : MetaDirEntry M F S T C → DEntry M F S T C
  | .mk e _ _ => e

/-- The `metadata` field of `MetaDirEntry`. -/
def MetaDirEntry.metadata : MetaDirEntry M F S T C → M
  | .mk _ m _ => m

/-- The `context` field of `MetaDirEntry`. -/
def MetaDirEntry.context : MetaDirEntry M F S T C → C
  | .mk _ _ c => c

/-- Replace the `context` field of a `MetaDirEntry` (the assignment
`entry.context = ...` in `DiffTree::compute`). -/
def MetaDirEntry.setCtx : MetaDirEntry M F S T C → C → MetaDirEntry M F S T C
  | .mk e m _, c => .mk e m c

/-- Models `MetaDirEntry::is_file`. -/
def MetaDirEntry.isFile : MetaDirEntry M F S T C → Bool
  | .mk (.file _) _ _ => true
  | _ => false

/-- Models `MetaDirEntry::is_dir`. -/
def MetaDirEntry.isDir : MetaDirEntry M F S T C → Bool
  | .mk (.directory _) _ _ => true
  | _ => false

mutual

/-- The derived `PartialEq` of `DirEntry` (structural equality; for
directories it compares the child maps, including the children's metadata and
contexts). -/
def DEntry.beq [DecidableEq M] [DecidableEq F] [DecidableEq S] [DecidableEq T] [DecidableEq C] :
    DEntry M F S T C → DEntry M F S T C → Bool
  | .file f1, .file f2 => decide (f1 = f2)
  | .symlink s1, .symlink s2 => decide (s1 = s2)
  | .directory l1, .directory l2 => entriesBeq l1 l2
  | .other t1, .other t2 => decide (t1 = t2)
  | _, _ => false

/-- The derived `PartialEq` of `MetaDirEntry`. -/
def MetaDirEntry.beq [DecidableEq M] [DecidableEq F] [DecidableEq S] [DecidableEq T]
    [DecidableEq C] : MetaDirEntry M F S T C → MetaDirEntry M F S T C → Bool
  | .mk e1 m1 c1, .mk e2 m2 c2 => e1.beq e2 && decide (m1 = m2) && decide (c1 = c2)

/-- Pointwise equality of directory entry lists. -/
def entriesBeq [DecidableEq M] [DecidableEq F] [DecidableEq S] [DecidableEq T] [DecidableEq C] :
    List (String × MetaDirEntry M F S T C) → List (String × MetaDirEntry M F S T C) → Bool
  | [], [] => true
  | (n1, e1) :: r1, (n2, e2) :: r2 => decide (n1 = n2) && e1.beq e2 && entriesBeq r1 r2
  | _, _ => false

end

/-- Models `BTreeMap::get`: look a child up by its exact name (first match in list
order). -/
def findEntry : List (String × MetaDirEntry M F S T C) → String →
    Option (MetaDirEntry M F S T C)
  | [], _ => none
  | (m, e) :: rest, n => if m = n then some e else findEntry rest n

/-- Models `BTreeMap::contains_key`. -/
def hasKey (l : List (String × MetaDirEntry M F S T C)) (n : String) : Bool :=
  (findEntry l n).isSome

mutual

/-- Models `MetaDirEntry::with_context` (`fs.rs`): clone the tree, annotating every
node with the context computed for it by `f`. -/
def MetaDirEntry.withContext (e : MetaDirEntry M F S T C)
    (f : MetaDirEntry M F S T C → C') : MetaDirEntry M F S T C' :=
  match e with
  | .mk entry md c => .mk (DEntry.withContextE entry f) md (f (.mk entry md c))

/-- Models `with_context` on the inner `DirEntry`. -/
def DEntry.withContextE (e : DEntry M F S T C)
    (f : MetaDirEntry M F S T C → C') : DEntry M F S T C' :=
  match e with
  | .file f0 => .file f0
  | .symlink s0 => .symlink s0
  | .directory entries => .directory (withContextEntries entries f)
  | .other t0 => .other t0

/-- Models `with_context` on a child list. -/
def withContextEntries (l : List (String × MetaDirEntry M F S T C))
    (f : MetaDirEntry M F S T C → C') : List (String × MetaDirEntry M F S T C') :=
  match l with
  | [] => []
  | (n, e) :: rest => (n, e.withContext f) :: withContextEntries rest f

end

mutual

/-- Map a function over the metadata of every node (the
`From<MetaDEntryV1> for MetaDEntry` conversion of `fs.rs` is this map with
`metadataV1ToLatest`). -/
def MetaDirEntry.mapMeta (g : M → M') : MetaDirEntry M F S T C → MetaDirEntry M' F S T C
  | .mk e md c => .mk (DEntry.mapMetaE g e) (g md) c

/-- Models `mapMeta` on the inner `DirEntry`. -/
def DEntry.mapMetaE (g : M → M') : DEntry M F S T C → DEntry M' F S T C
  | .file f0 => .file f0
  | .symlink s0 => .symlink s0
  | .directory entries => .directory (mapMetaEntries g entries)
  | .other t0 => .other t0

/-- Models `mapMeta` on a child list. -/
def mapMetaEntries (g : M → M') :
    List (String × MetaDirEntry M F S T C) → List (String × MetaDirEntry M' F S T C)
  | [] => []
  | (n, e) :: rest => (n, e.mapMeta g) :: mapMetaEntries g rest

end

mutual

/-- Models `MetaDirEntry::walk` (`fs/directory/walker.rs`): a pre-order traversal
yielding every node together with its path below the root.  The walker
reports the root with path `/` and each descendant with the `/`-joined chain
of names; here a path is the list of name components (the root is `[]`). -/
def MetaDirEntry.walk : MetaDirEntry M F S T C → List (List String × MetaDirEntry M F S T C)
  | .mk e md c => ([], .mk e md c) :: DEntry.walkE e

/-- Models `walk` below a `DirEntry` (only directories have descendants). -/
def DEntry.walkE : DEntry M F S T C → List (List String × MetaDirEntry M F S T C)
  | .directory es => walkEntries es
  | _ => []

/-- Models `walk` over a child list, prefixing each child's name. -/
def walkEntries : List (String × MetaDirEntry M F S T C) →
    List (List String × MetaDirEntry M F S T C)
  | [] => []
  | (n, c) :: rest =>
    (c.walk.map (fun pe => (n :: pe.1, pe.2))) ++ walkEntries rest

end

/-- ASCII lower-casing of a character (`u8::to_ascii_lowercase`). -/
def asciiLower (c : Char) : Char :=
  if 'A' ≤ c ∧ c ≤ 'Z' then Char.ofNat (c.toNat + 32) else c

/-- Models `OsStr::eq_ignore_ascii_case`. -/
def eqIgnoreAsciiCase (a b : String) : Bool :=
  decide (a.data.map asciiLower = b.data.map asciiLower)

/-- Models `MetaDirEntry::get` (`fs/directory.rs`) on an already-split component
list: exact lookup first, then a case-insensitive fallback; `.` and `..`
components make the lookup fail (`anyhow::bail!`). -/
def MetaDirEntry.getPath : MetaDirEntry M F S T C → List String →
    Option (MetaDirEntry M F S T C)
  | e, [] => some e
  | e, n :: rest =>
    if n = "." ∨ n = ".." then none
    else
      match e with
      | .mk (.directory es) _ _ =>
        match findEntry es n with
        | some c => c.getPath rest
        | none =>
          match es.find? (fun p => eqIgnoreAsciiCase p.1 n) with
          | some p => p.2.getPath rest
          | none => none
      | _ => none

/-- Exact-name navigation to the node at a path (used to state which node of
a diff tree a path denotes). -/
def MetaDirEntry.lookupPath : MetaDirEntry M F S T C → List String →
    Option (MetaDirEntry M F S T C)
  | e, [] => some e
  | .mk (.directory es) _ _, n :: rest =>
    match findEntry es n with
    | some c => c.lookupPath rest
    | none => none
  | _, _ :: _ => none

mutual

/-- Whether `q` holds of the context of every node of the tree. -/
def MetaDirEntry.allCtx (q : C → Bool) : MetaDirEntry M F S T C → Bool
  | .mk e _ c => q c && DEntry.allCtxE q e

/-- Models `allCtx` on the inner `DirEntry`. -/
def DEntry.allCtxE (q : C → Bool) : DEntry M F S T C → Bool
  | .directory es => allCtxEntries q es
  | _ => true

/-- Models `allCtx` on a child list. -/
def allCtxEntries (q : C → Bool) : List (String × MetaDirEntry M F S T C) → Bool
  | [] => true
  | (_, e) :: rest => e.allCtx q && allCtxEntries q rest

end

/-! ## The diff engine (`src/diff.rs`) -/

/-- Models `DiffType` from `diff.rs`. -/
inductive DiffType (M F S T : Type) : Type where
  | unchanged (metadataChangedTo : Option M)
  | childrenChanged (metadataChangedTo : Option M)
  | changed (changedTo : MetaDirEntry M F S T Unit)
  | added
  | removed

/-- Whether a diff classification is `Added`. -/
def DiffType.isAdded : DiffType M F S T → Bool
  | .added => true
  | _ => false

/-- Whether a diff classification is `Removed`. -/
def DiffType.isRemoved : DiffType M F S T → Bool
  | .removed => true
  | _ => false

/-- Whether a diff classification is `Unchanged { metadata_changed_to: None }`. -/
def DiffType.isUnchangedNone : DiffType M F S T → Bool
  | .unchanged none => true
  | _ => false

/-- The children of `latter` whose names do not occur in `former`, each
annotated `Added` on every node (the second loop of `DiffTree::compute`). -/
def addedEntries [DecidableEq M] [DecidableEq F] [DecidableEq S] [DecidableEq T]
    (formerDir latterDir : List (String × MetaDirEntry M F S T Unit)) :
    List (String × MetaDirEntry M F S T (DiffType M F S T)) :=
  (latterDir.filter (fun p => !hasKey formerDir p.1)).map
    (fun p => (p.1, p.2.withContext (fun _ => DiffType.added)))

mutual

/-- Models `DiffTree::compute` (`diff.rs`): structurally equal nodes become
`Unchanged` (recording a metadata delta when only the metadata differs); two
differing directories recurse per child, names found only in the former tree
become `Removed`, names found only in the latter tree become `Added`, and the
directory itself becomes `ChildrenChanged`; any other differing pair becomes
`Changed { to: latter }` on every node of the former subtree. -/
def DiffTree.compute [DecidableEq M] [DecidableEq F] [DecidableEq S] [DecidableEq T]
    (former latter : MetaDirEntry M F S T Unit) :
    MetaDirEntry M F S T (DiffType M F S T) :=
  if former.entry.beq latter.entry then
    let e := former.withContext (fun _ => DiffType.unchanged none)
    if former.metadata = latter.metadata then e
    else e.setCtx (DiffType.unchanged (some latter.metadata))
  else
    match former, latter with
    | .mk (.directory formerDir) fmd _, .mk (.directory latterDir) lmd _ =>
      .mk (.directory (computeFormer formerDir latterDir ++ addedEntries formerDir latterDir))
        fmd
        (.childrenChanged (if fmd = lmd then none else some lmd))
    | f', l' => f'.withContext (fun _ => DiffType.changed l')

/-- The first loop of `DiffTree::compute`: process the former directory's
children, recursing on names present in both trees and marking the others
`Removed`. -/
def computeFormer [DecidableEq M] [DecidableEq F] [DecidableEq S] [DecidableEq T] :
    List (String × MetaDirEntry M F S T Unit) →
    List (String × MetaDirEntry M F S T Unit) →
    List (String × MetaDirEntry M F S T (DiffType M F S T))
  | [], _ => []
  | (n, e) :: rest, latterDir =>
    (match findEntry latterDir n with
     | some le => (n, DiffTree.compute e le)
     | none => (n, e.withContext (fun _ => DiffType.removed))) ::
      computeFormer rest latterDir

end

/-- The context at path `p` of a diff tree satisfies `q` (false when the path
does not exist). -/
def taggedWith (t : MetaDirEntry M F S T (DiffType M F S T)) (p : List String)
    (q : DiffType M F S T → Bool) : Bool :=
  match t.lookupPath p with
  | some e => q e.context
  | none => false

/-- Erase the per-node context of a tree. -/
def eraseCtx (t : MetaDirEntry M F S T C) : MetaDirEntry M F S T Unit :=
  t.withContext (fun _ => ())

/-- The child list of a directory node (empty for non-directories). -/
def childrenOf (t : MetaDirEntry M F S T C) : List (String × MetaDirEntry M F S T C) :=
  match t with
  | .mk (.directory es) _ _ => es
  | _ => []

/-- The concrete instantiation used by the program: the latest `Metadata`,
`File`, `Symlink` and `DirEntryType` (`type MetaDEntry<Context> = ...` in
`fs.rs`). -/
abbrev MetaDEntry (C : Type) : Type := MetaDirEntry Metadata File Symlink DirEntryType C

/-- The version-1 instantiation (`type MetaDEntryV1<Context> = ...`). -/
abbrev MetaDEntryV1 (C : Type) : Type := MetaDirEntry MetadataV1 File Symlink DirEntryType C

/-! ## Autoruns (`src/autoruns.rs`) -/

/-- Models `SignerVerification` from `autoruns.rs`. -/
inductive SignerVerification where
  | verified
  | notVerified
  | unknown
  | other (text : String)
  deriving DecidableEq, Repr

/-- Models `AutorunsEntry` from `autoruns.rs`. -/
structure AutorunsEntry where
  entry : String
  description : String
  signer : String
  signerVerification : SignerVerification
  imagePath : Option String
  timestamp : Option Timestamp
  category : String
  location : String
  profile : String
  company : String
  version : String
  launchString : String
  deriving DecidableEq, Repr

/-- Models `Autoruns`: the parsed autoruns file. -/
structure Autoruns where
  entries : List AutorunsEntry
  recordingTime : Timestamp
  deriving DecidableEq, Repr

/-- Models `AutorunsEvaluationResult` from `autoruns.rs`. -/
inductive AutorunsEvaluationResult where
  | missingImagePath
  | missingFile (isMain : Bool)
  | entryNotAFile (isMain : Bool) (ty : DirEntryType)
  | fileChanged
  | hashUnknown (md5 : List Nat)
  | unknownPath
  deriving DecidableEq, Repr

/-- Models `AutorunsEvaluation`: the evaluated entry together with its result list. -/
structure AutorunsEvaluation where
  entry : AutorunsEntry
  results : List AutorunsEvaluationResult

/-- Models `AutorunsEvaluation::unknown_hash_only`. -/
def AutorunsEvaluation.unknownHashOnly (e : AutorunsEvaluation) : Bool :=
  match e.results with
  | [AutorunsEvaluationResult.hashUnknown _] => true
  | _ => false

/-- Models `AutorunsEvaluation::should_be_printed` (`autoruns.rs`): entries whose
signer is not `Verified` always print; otherwise the singleton
`[UnknownPath]` is suppressed and any other non-empty result list prints. -/
def AutorunsEvaluation.shouldBePrinted (e : AutorunsEvaluation) : Bool :=
  if e.entry.signerVerification ≠ SignerVerification.verified then true
  else if e.results = [AutorunsEvaluationResult.unknownPath] then false
  else !e.results.isEmpty

/-! ## Updates (`src/updates.rs`) -/

/-- Models `Update` from `updates.rs` (one row of the updates CSV). -/
structure Update where
  title : String
  description : String
  kb : String
  timestamp : Option Timestamp
  updateOperation : String
  operationResult : String
  informationUrl : String
  supportUrl : String
  uninstallNotes : String
  category : String
  clientApplicationId : String
  serviceId : String
  updateId : String
  revisionNumber : String
  unmappedResultCode : String
  serverSelection : String
  hresult : String
  deriving DecidableEq, Repr

/-- Models `Updates`: the parsed updates file. -/
structure Updates where
  updates : List Update
  recordingTime : Timestamp
  deriving DecidableEq, Repr

/-! ## Snapshots and the snapshot file (`src/snapshot.rs`) -/

/-- Models `Source` from `snapshot.rs`. -/
inductive Source where
  | directory (path : String)
  | vdiImage (path : String)
  deriving DecidableEq, Repr

/-- The latest (version 2) `Snapshot`. -/
structure Snapshot where
  root : MetaDEntry Unit
  source : Source
  timestamp : Timestamp
  version : Option String
  autoruns : Option Autoruns
  updates : Option Updates

/-- A version-1 `Snapshot` (version-1 metadata in the tree). -/
structure SnapshotV1 where
  root : MetaDEntryV1 Unit
  source : Source
  timestamp : Timestamp
  version : Option String
  autoruns : Option Autoruns
  updates : Option Updates

/-- The version-1 → version-2 migration performed by
`SnapshotLatest::from_file`: the tree is converted node-by-node through
`From<MetadataV1> for Metadata`, all other fields are copied. -/
def migrateV1 (s : SnapshotV1) : Snapshot :=
  { root := s.root.mapMeta metadataV1ToLatest, source := s.source,
    timestamp := s.timestamp, version := s.version, autoruns := s.autoruns,
    updates := s.updates }

/-- Models `SnapshotFileHeader`: the uncompressed header of a snapshot file (a
length-prefixed magic string followed by a one-byte version). -/
structure SnapshotFileHeader where
  magic : String
  version : Nat
  deriving DecidableEq, Repr

/-- The errors `SnapshotLatest::from_file` can report after the header has
been decoded: a wrong magic string, the obsolete version 0, an unknown
version byte, or a failure while deserializing the body. -/
inductive SnapshotReadError where
  | badFormat (magic : String)
  | obsoleteVersion
  | unsupportedVersion (v : Nat)
  | bodyError
  deriving DecidableEq, Repr

/-- Models `SnapshotLatest::from_file` (`snapshot.rs`), given the decoded header and
the results of deserializing the gzip-compressed body at each version (the
body decoding itself is the external `flate2`/`bincode` machinery):
`SnapshotFileHeader::read_from_file` bails unless the magic is `snpsht`, then
the version byte selects the deserializer — 0 is rejected as no longer
supported, 1 is parsed and migrated, 2 is parsed directly, and anything else
is an unknown version. -/
def snapshotFromFile (h : SnapshotFileHeader) (body1 : Option SnapshotV1)
    (body2 : Option Snapshot) : Except SnapshotReadError Snapshot :=
  if h.magic ≠ "snpsht" then Except.error (SnapshotReadError.badFormat h.magic)
  else
    match h.version with
    | 0 => Except.error SnapshotReadError.obsoleteVersion
    | 1 =>
      match body1 with
      | some v1 => Except.ok (migrateV1 v1)
      | none => Except.error SnapshotReadError.bodyError
    | 2 =>
      match body2 with
      | some v2 => Except.ok v2
      | none => Except.error SnapshotReadError.bodyError
    | v + 3 => Except.error (SnapshotReadError.unsupportedVersion (v + 3))

/-! ## Text-encoding validation during scan (`File::from_path`,
`src/fs/file.rs`)

`File::from_path` streams the file once, byte by byte, keeping per-encoding
carry buffers and clearing an encoding's flag as soon as the stream can no
longer be valid in that encoding; at end of file the UTF-16 and UTF-32 flags
are additionally cleared when their carry buffers are non-empty. -/

/-- The classification `std::str::from_utf8` gives a byte buffer: fully
valid, invalid (`error_len` is `Some`), or truncated inside a multi-byte
sequence at the end (`error_len` is `None`). -/
inductive Utf8Status where
  | ok
  | incomplete
  | invalid
  deriving DecidableEq, Repr

/-- The continuation-byte ranges demanded by a UTF-8 leading byte, or `none`
for an invalid leading byte (RFC 3629 as enforced by `std::str::from_utf8`). -/
def utf8Ranges (b : Nat) : Option (List (Nat × Nat)) :=
  if b ≤ 0x7F then some []
  else if 0xC2 ≤ b ∧ b ≤ 0xDF then some [(0x80, 0xBF)]
  else if b = 0xE0 then some [(0xA0, 0xBF), (0x80, 0xBF)]
  else if (0xE1 ≤ b ∧ b ≤ 0xEC) ∨ (0xEE ≤ b ∧ b ≤ 0xEF) then some [(0x80, 0xBF), (0x80, 0xBF)]
  else if b = 0xED then some [(0x80, 0x9F), (0x80, 0xBF)]
  else if b = 0xF0 then some [(0x90, 0xBF), (0x80, 0xBF), (0x80, 0xBF)]
  else if 0xF1 ≤ b ∧ b ≤ 0xF3 then some [(0x80, 0xBF), (0x80, 0xBF), (0x80, 0xBF)]
  else if b = 0xF4 then some [(0x80, 0x8F), (0x80, 0xBF), (0x80, 0xBF)]
  else none

/-- Scan a byte list against UTF-8, tracking the continuation ranges still
expected for the current code point. -/
def utf8Scan : List (Nat × Nat) → List Nat → Utf8Status
  | pending, [] => if pending.isEmpty then Utf8Status.ok else Utf8Status.incomplete
  | [], b :: rest =>
    (match utf8Ranges b with
     | none => Utf8Status.invalid
     | some rs => utf8Scan rs rest)
  | (lo, hi) :: rs, b :: rest =>
    if lo ≤ b ∧ b ≤ hi then utf8Scan rs rest else Utf8Status.invalid

/-- Models `std::str::from_utf8` on a byte buffer, as a classification. -/
def utf8Validate (l : List Nat) : Utf8Status := utf8Scan [] l

/-- The standard UTF-8 decoder accepts the whole byte sequence. -/
def utf8AcceptsFull (l : List Nat) : Bool := decide (utf8Validate l = Utf8Status.ok)

/-- Whether a 16-bit unit is a high (leading) surrogate. -/
def isHighSurrogate (u : Nat) : Bool := decide (0xD800 ≤ u ∧ u ≤ 0xDBFF)

/-- Whether a 16-bit unit is a low (trailing) surrogate. -/
def isLowSurrogate (u : Nat) : Bool := decide (0xDC00 ≤ u ∧ u ≤ 0xDFFF)

/-- Models `u16::from_be_bytes`. -/
def u16be (b0 b1 : Nat) : Nat := b0 * 256 + b1

/-- Models `u16::from_le_bytes`. -/
def u16le (b0 b1 : Nat) : Nat := b1 * 256 + b0

/-- The inner `valid_utf16` helper of `File::from_path`: on two buffered
bytes, one decoded unit — a non-surrogate completes a character
(`Some(true)`), a surrogate defers (`None`); on four bytes, two units — the
first `char::decode_utf16` item decides (`Some(true)` when it is `Ok`,
`Some(false)` otherwise); any other buffer length defers. -/
def validUtf16 (bytes : List Nat) (conv : Nat → Nat → Nat) : Option Bool :=
  match bytes with
  | [b0, b1] =>
    let u := conv b0 b1
    if !(isHighSurrogate u || isLowSurrogate u) then some true else none
  | [b0, b1, b2, b3] =>
    let u1 := conv b0 b1
    let u2 := conv b2 b3
    if !(isHighSurrogate u1 || isLowSurrogate u1) then some true
    else if isHighSurrogate u1 && isLowSurrogate u2 then some true
    else some false
  | _ => none

/-- Models `char::from_u32(x).is_some()`: a Unicode scalar value. -/
def isValidScalar (x : Nat) : Bool := decide (x < 0xD800 ∨ (0xE000 ≤ x ∧ x ≤ 0x10FFFF))

/-- Models `u32::from_be_bytes` of a 4-byte buffer. -/
def u32beOf (l : List Nat) : Nat :=
  match l with
  | [b0, b1, b2, b3] => ((b0 * 256 + b1) * 256 + b2) * 256 + b3
  | _ => 0

/-- Models `u32::from_le_bytes` of a 4-byte buffer. -/
def u32leOf (l : List Nat) : Nat :=
  match l with
  | [b0, b1, b2, b3] => ((b3 * 256 + b2) * 256 + b1) * 256 + b0
  | _ => 0

/-- The per-encoding scanning state of `File::from_path`: the current flags
and the carry buffers of not-yet-complete code points. -/
structure EncodingScan where
  flags : FileFlags
  buf8 : List Nat
  buf16be : List Nat
  buf16le : List Nat
  buf32 : List Nat
  deriving DecidableEq, Repr

/-- The scanning state before the first byte. -/
def initialScan : EncodingScan :=
  { flags := FileFlags.utfEncoding, buf8 := [], buf16be := [], buf16le := [], buf32 := [] }

/-- One iteration of the byte loop of `File::from_path` (the encoding
validation part). -/
def stepByte (st : EncodingScan) (b : Nat) : EncodingScan :=
  let st :=
    if st.flags.utf8 then
      let buf := st.buf8 ++ [b]
      match utf8Validate buf with
      | Utf8Status.ok => { st with buf8 := [] }
      | Utf8Status.invalid => { st with flags := { st.flags with utf8 := false }, buf8 := buf }
      | Utf8Status.incomplete => { st with buf8 := buf }
    else st
  let st :=
    if st.flags.utf16be then
      let buf := st.buf16be ++ [b]
      match validUtf16 buf u16be with
      | some true => { st with buf16be := [] }
      | some false => { st with flags := { st.flags with utf16be := false }, buf16be := buf }
      | none => { st with buf16be := buf }
    else st
  let st :=
    if st.flags.utf16le then
      let buf := st.buf16le ++ [b]
      match validUtf16 buf u16le with
      | some true => { st with buf16le := [] }
      | some false => { st with flags := { st.flags with utf16le := false }, buf16le := buf }
      | none => { st with buf16le := buf }
    else st
  if st.flags.utf32be || st.flags.utf32le then
    let buf := st.buf32 ++ [b]
    if buf.length = 4 then
      let st :=
        if !isValidScalar (u32beOf buf) then { st with flags := { st.flags with utf32be := false } }
        else st
      let st :=
        if !isValidScalar (u32leOf buf) then { st with flags := { st.flags with utf32le := false } }
        else st
      { st with buf32 := [] }
    else { st with buf32 := buf }
  else st

/-- The end-of-file fixup of `File::from_path`: clear the UTF-16 flags when
their carry buffers are non-empty, and both UTF-32 flags when the UTF-32
carry buffer is non-empty.  (No such check is made for the UTF-8 buffer.) -/
def finalizeFlags (st : EncodingScan) : FileFlags :=
  let flags := st.flags
  let flags := if st.buf16be ≠ [] then { flags with utf16be := false } else flags
  let flags := if st.buf16le ≠ [] then { flags with utf16le := false } else flags
  if st.buf32 ≠ [] then { flags with utf32be := false, utf32le := false } else flags

/-- The `FileFlags` value `File::from_path` computes for a byte sequence. -/
def fileFlagsOfBytes (bytes : List Nat) : FileFlags :=
  finalizeFlags (bytes.foldl stepByte initialScan)

/-! ## PE/COFF header extraction (`extract_coff_header`, `src/fs/file.rs`) -/

/-- Models `FileExt::read_exact_at`: `len` bytes at absolute offset `off`, failing
when the read would run past the end of the file. -/
def readExactAt (bytes : List Nat) (off len : Nat) : Option (List Nat) :=
  if off + len ≤ bytes.length then some ((bytes.drop off).take len) else none

/-- Models `u16::from_le_bytes` of a 2-byte buffer. -/
def u16leOf (l : List Nat) : Nat :=
  match l with
  | [b0, b1] => b1 * 256 + b0
  | _ => 0

/-- Models `extract_coff_header` (`fs/file.rs`): `none` models an I/O error
(`read_exact_at` past the end of the file), `some none` a file that is not a
PE executable, and `some (some hdr)` the extracted COFF header plus clamped
optional header. -/
def extractCoffHeaderRes (bytes : List Nat) : Option (Option (List Nat)) :=
  match readExactAt bytes 0 2 with
  | none => none
  | some magic =>
    if magic ≠ [0x4D, 0x5A] then some none
    else
      match readExactAt bytes 0x3C 4 with
      | none => none
      | some offBytes =>
        let peOff := u32leOf offBytes
        match readExactAt bytes peOff 4 with
        | none => none
        | some sig =>
          if sig ≠ [0x50, 0x45, 0x00, 0x00] then some none
          else
            let headerStart := peOff + 4
            match readExactAt bytes (headerStart + 16) 2 with
            | none => none
            | some lenBytes =>
              let optionalHeaderLen := min (u16leOf lenBytes) 256
              match readExactAt bytes headerStart (20 + optionalHeaderLen) with
              | none => none
              | some hdr => some (some hdr)

/-- The `coff_header` field as stored by `File::from_path`:
`extract_coff_header(&file).ok().flatten()`. -/
def coffHeaderOf (bytes : List Nat) : Option (List Nat) :=
  (extractCoffHeaderRes bytes).join

/-! ## The cross-snapshot database (`src/database.rs`)

The SQLite state is a record of row lists.  Inserted rows are appended;
`ON CONFLICT IGNORE` uniqueness constraints are modelled by skipping the
append when a conflicting row exists; a fresh `rowid` is one more than the
maximum existing id (SQLite's rowid allocation for non-huge tables);
`query_row` returns the first matching row in table order. -/

/-- A row of `Snapshots(id, date, version, comment)`.  The `date` TEXT
column holds the formatted `OffsetDateTime` of the snapshot timestamp; the
formatting is injective, so the column is modelled by the timestamp itself. -/
structure SnapshotRow where
  id : Int
  date : Timestamp
  version : Option String
  comment : String
  deriving DecidableEq, Repr

/-- A row of `Paths(id, path BLOB)`; the path blob (`OsStr` bytes) is
modelled as a `String`. -/
structure PathRow where
  id : Int
  path : String
  deriving DecidableEq, Repr

/-- A row of `NormalizedPaths(id, path TEXT)`. -/
structure NormalizedPathRow where
  id : Int
  path : String
  deriving DecidableEq, Repr

/-- A row of `Files`; the five encoding-flag INT columns are carried as a
`FileFlags` value. -/
structure FileRow where
  id : Int
  sha256 : List Nat
  md5 : List Nat
  size : Nat
  firstBytes : List Nat
  entropyBits : Nat
  coffHeader : Option (List Nat)
  flags : FileFlags
  deriving DecidableEq, Repr

/-- A row of `Records`. -/
structure RecordRow where
  id : Int
  snapshotId : Int
  pathId : Int
  normalizedPathId : Option Int
  fileId : Int
  deriving DecidableEq, Repr

/-- A row of `Autoruns`. -/
structure AutorunRow where
  id : Int
  snapshotId : Int
  pathId : Int
  normalizedPathId : Option Int
  fileId : Option Int
  entryName : String
  deriving DecidableEq, Repr

/-- The `Database` connection state: the six tables plus the registered main
and comparison snapshot ids. -/
structure Database where
  snapshots : List SnapshotRow
  paths : List PathRow
  normalizedPaths : List NormalizedPathRow
  files : List FileRow
  records : List RecordRow
  autoruns : List AutorunRow
  mainSnapshotId : Option Int
  comparisonSnapshotId : Option Int

/-- A freshly created (or empty) database. -/
def emptyDb : Database :=
  { snapshots := [], paths := [], normalizedPaths := [], files := [],
    records := [], autoruns := [], mainSnapshotId := none,
    comparisonSnapshotId := none }

/-- The row counts of the six tables, in schema order. -/
def tableRowCounts (db : Database) : List Nat :=
  [db.snapshots.length, db.paths.length, db.normalizedPaths.length,
   db.files.length, db.records.length, db.autoruns.length]

/-- The next `rowid` for a table with the given ids. -/
def freshId (ids : List Int) : Int := ids.foldr max 0 + 1

/-- The SQL `x IS NOT :param` test against a nullable parameter: with a NULL
parameter it holds of every (non-null) `x`. -/
def sqlIsNot (x : Int) (o : Option Int) : Bool :=
  match o with
  | none => true
  | some m => decide (x ≠ m)

/-- Modelled from the spec: `OsStrExt::normalize` (`fs.rs`) decodes the path
bytes as UTF-8 and maps every character through the NTFS case-folding table
bundled from the build-time binary asset `ntfs_upcase`, which is not present
under `src/`; the spec describes it as a 128 KiB little-endian u16 table
indexed by codepoint, identity outside its range.  The fold table is
therefore taken as the parameter `fold`, and since `OsString` is modelled as
`String` the UTF-8 decoding step always succeeds. -/
def normalizeOsStr (fold : Char → Char) (s : String) : Option String :=
  some (String.map fold s)

/-- The `INSERT INTO Files`/id-lookup pair of `insert_file`: the UNIQUE
constraint is over `(sha256, md5, size, first_bytes)`; the id-lookup
statement compares only `sha256`, `md5` and `size` (its remaining parameters
sit under a constant-true `1 OR (...)` disjunct). -/
def insertFileRow (db : Database) (f : File) (size : Nat) : Int × Database :=
  if db.files.any (fun r =>
      decide (r.sha256 = f.sha256 ∧ r.md5 = f.md5 ∧ r.size = size ∧ r.firstBytes = f.firstBytes)) then
    (match db.files.find? (fun r =>
        decide (r.sha256 = f.sha256 ∧ r.md5 = f.md5 ∧ r.size = size)) with
     | some r => r.id
     | none => 0, db)
  else
    let id := freshId (db.files.map (fun r => r.id))
    (id, { db with files := db.files ++
      [{ id := id, sha256 := f.sha256, md5 := f.md5, size := size,
         firstBytes := f.firstBytes, entropyBits := f.entropyBits,
         coffHeader := f.coffHeader, flags := f.flags }] })

/-- Models `insert_path`: insert the raw path blob into `Paths` (UNIQUE on the
blob) and, when the path normalizes, the case-folded string into
`NormalizedPaths` (UNIQUE on the string); returns `(path_id,
normalized_path_id)`. -/
def insertPathRow (fold : Char → Char) (db : Database) (p : String) :
    (Int × Option Int) × Database :=
  let step1 : Int × Database :=
    if db.paths.any (fun r => decide (r.path = p)) then
      (match db.paths.find? (fun r => decide (r.path = p)) with
       | some r => r.id
       | none => 0, db)
    else
      let id := freshId (db.paths.map (fun r => r.id))
      (id, { db with paths := db.paths ++ [{ id := id, path := p }] })
  let pid := step1.1
  let db1 := step1.2
  match normalizeOsStr fold p with
  | none => ((pid, none), db1)
  | some np =>
    let step2 : Int × Database :=
      if db1.normalizedPaths.any (fun r => decide (r.path = np)) then
        (match db1.normalizedPaths.find? (fun r => decide (r.path = np)) with
         | some r => r.id
         | none => 0, db1)
      else
        let id := freshId (db1.normalizedPaths.map (fun r => r.id))
        (id, { db1 with normalizedPaths := db1.normalizedPaths ++ [{ id := id, path := np }] })
    ((pid, some step2.1), step2.2)

/-- The `INSERT INTO Records` statement (UNIQUE on `(snapshot_id, path_id,
file_id)`, conflicts ignored). -/
def insertRecordRow (db : Database) (sid pid : Int) (nid : Option Int) (fid : Int) : Database :=
  if db.records.any (fun r =>
      decide (r.snapshotId = sid ∧ r.pathId = pid ∧ r.fileId = fid)) then db
  else
    { db with records := db.records ++
      [{ id := freshId (db.records.map (fun r => r.id)), snapshotId := sid,
         pathId := pid, normalizedPathId := nid, fileId := fid }] }

/-- The `INSERT INTO Snapshots`/id-lookup pair of `insert_snapshot`: SQLite
UNIQUE constraints treat NULLs as pairwise distinct, so the `(date,
version)` constraint only fires for a non-NULL version; on a conflict the
prepared id statement matches with the NULL-safe `version IS :version`. -/
def insertSnapshotRow (db : Database) (date : Timestamp) (version : Option String)
    (comment : String) : Int × Database :=
  if db.snapshots.any (fun r =>
      decide (r.date = date ∧ r.version = version) && version.isSome) then
    (match db.snapshots.find? (fun r => decide (r.date = date ∧ r.version = version)) with
     | some r => r.id
     | none => 0, db)
  else
    let id := freshId (db.snapshots.map (fun r => r.id))
    (id, { db with snapshots := db.snapshots ++
      [{ id := id, date := date, version := version, comment := comment }] })

/-- The `INSERT INTO Autoruns` statement (UNIQUE on `(snapshot_id,
path_id)`, conflicts ignored). -/
def insertAutorunRow (db : Database) (sid pid : Int) (nid : Option Int)
    (fid : Option Int) (name : String) : Database :=
  if db.autoruns.any (fun r => decide (r.snapshotId = sid ∧ r.pathId = pid)) then db
  else
    { db with autoruns := db.autoruns ++
      [{ id := freshId (db.autoruns.map (fun r => r.id)), snapshotId := sid,
         pathId := pid, normalizedPathId := nid, fileId := fid, entryName := name }] }

/-- The all-zero MD5 value stored by snapshots predating MD5 support. -/
def zeroMd5 : List Nat := List.replicate 16 0

/-- Models `get_file_id` (`database.rs`): the first `Files` row whose hashes match
the file — either both hashes exactly, or, to cover old snapshots without
MD5 values, an all-zero `md5` column together with a matching `sha256`. -/
def getFileId (db : Database) (f : File) : Option Int :=
  (db.files.find? (fun r =>
    decide ((r.md5 = f.md5 ∧ r.sha256 = f.sha256) ∨
            (r.md5 = zeroMd5 ∧ r.sha256 = f.sha256)))).map (fun r => r.id)

/-- The `clone_path` of a walked tree node: `/`-joined components with a
leading `/` (the root alone is `/`). -/
def pathString (comps : List String) : String :=
  "/" ++ String.intercalate "/" comps

/-- Models `convert_windows_path` (`fs.rs`): drop a leading `C:` or `c:` and turn
backslashes into slashes. -/
def convertWindowsPath (p : String) : String :=
  let stripped :=
    if p.startsWith "C:" then p.drop 2
    else if p.startsWith "c:" then p.drop 2
    else p
  String.map (fun ch => if ch = '\\' then '/' else ch) stripped

/-- Models `Path::components` of a slash-separated path, keeping only normal
components (the root and empty components are skipped; `.` and `..` are kept
so that `MetaDirEntry.getPath` can reject them as the source does). -/
def pathComponents (p : String) : List String :=
  (p.splitOn "/").filter (fun c => c ≠ "")

/-- Models `insert_entry` (`database.rs`): only file nodes are recorded — the file
goes into `Files`, the paths into `Paths`/`NormalizedPaths` and the
occurrence into `Records`. -/
def insertEntry (fold : Char → Char) (db : Database) (sid : Int) (p : String)
    (e : MetaDEntry Unit) : Database :=
  match e.entry with
  | DEntry.file f =>
    let step1 := insertFileRow db f e.metadata.size
    let step2 := insertPathRow fold step1.2 p
    insertRecordRow step2.2 sid step2.1.1 step2.1.2 step1.1
  | _ => db

/-- The record-insertion loop of `insert_snapshot` over all walked nodes. -/
def insertAllEntries (fold : Char → Char) (db : Database) (sid : Int)
    (l : List (List String × MetaDEntry Unit)) : Database :=
  l.foldl (fun d pe => insertEntry fold d sid (pathString pe.1) pe.2) db

/-- One iteration of the autoruns-insertion loop of `insert_snapshot`:
entries without an image path are skipped; otherwise the converted path is
inserted, the snapshot tree is consulted for a file at that path (to
cross-link `file_id` via `get_file_id`), and the autorun row is inserted. -/
def insertAutorunEntry (fold : Char → Char) (db : Database) (sid : Int)
    (root : MetaDEntry Unit) (e : AutorunsEntry) : Database :=
  match e.imagePath with
  | none => db
  | some raw =>
    let p := convertWindowsPath raw
    let step := insertPathRow fold db p
    let db1 := step.2
    let fid : Option Int :=
      match root.getPath (pathComponents p) with
      | some me =>
        match me.entry with
        | DEntry.file f => getFileId db1 f
        | _ => none
      | none => none
    insertAutorunRow db1 sid step.1.1 step.1.2 fid e.entry

/-- The autoruns-insertion loop of `insert_snapshot`. -/
def insertAllAutoruns (fold : Char → Char) (db : Database) (sid : Int)
    (root : MetaDEntry Unit) (l : List AutorunsEntry) : Database :=
  l.foldl (fun d e => insertAutorunEntry fold d sid root e) db

/-- The number of file nodes in a snapshot
(`snapshot.root.walk().filter(is_file).count()`). -/
def countFiles (s : Snapshot) : Nat :=
  (s.root.walk.filter (fun pe => pe.2.isFile)).length

/-- The `Snapshots` lookup `date = :date AND version IS :version` (first
matching row). -/
def snapLookup (db : Database) (date : Timestamp) (version : Option String) :
    Option SnapshotRow :=
  db.snapshots.find? (fun r => decide (r.date = date ∧ r.version = version))

/-- Models `COUNT(1) FROM Records WHERE snapshot_id = :snapshot_id`. -/
def recordCountFor (db : Database) (sid : Int) : Nat :=
  (db.records.filter (fun r => decide (r.snapshotId = sid))).length

/-- Models `Database::get_snapshot_id` (`database.rs`): find the `Snapshots` row of
the snapshot's `(date, version)`; the snapshot counts as present only when
its `Records` count equals the snapshot's file count. -/
def getSnapshotId (db : Database) (s : Snapshot) : Option Int :=
  match snapLookup db s.timestamp s.version with
  | none => none
  | some r => if recordCountFor db r.id = countFiles s then some r.id else none

/-- Models `Database::insert_snapshot` (`database.rs`): return the existing id when
`get_snapshot_id` finds the snapshot already present; otherwise insert the
`Snapshots` row, a record for every file node of the walked tree, and — when
autoruns data is present — one `Autoruns` row per entry with an image
path. -/
def insertSnapshot (fold : Char → Char) (db : Database) (s : Snapshot)
    (comment : String) : Int × Database :=
  match getSnapshotId db s with
  | some id => (id, db)
  | none =>
    let step := insertSnapshotRow db s.timestamp s.version comment
    let sid := step.1
    let db1 := step.2
    let db2 := insertAllEntries fold db1 sid s.root.walk
    let db3 :=
      match s.autoruns with
      | none => db2
      | some ar => insertAllAutoruns fold db2 sid s.root ar.entries
    (sid, db3)

/-- Models `Database::main_snapshot`: register the main snapshot id. -/
def setMainSnapshot (db : Database) (s : Snapshot) : Database :=
  { db with mainSnapshotId := getSnapshotId db s }

/-- Models `Database::comparison_snapshot`: register the comparison snapshot id. -/
def setComparisonSnapshot (db : Database) (s : Snapshot) : Database :=
  { db with comparisonSnapshotId := getSnapshotId db s }

/-- Models `Database::file_is_known` (`database.rs`): look the file id up via
`get_file_id`, then test for a `Records` row with that id, joined to its
`Snapshots` row, whose snapshot id `IS NOT` the main id and `IS NOT` the
comparison id. -/
def fileIsKnown (db : Database) (f : File) : Bool :=
  match getFileId db f with
  | none => false
  | some fid =>
    db.records.any (fun r =>
      db.snapshots.any (fun srow => decide (r.snapshotId = srow.id)) &&
      decide (r.fileId = fid) &&
      sqlIsNot r.snapshotId db.mainSnapshotId &&
      sqlIsNot r.snapshotId db.comparisonSnapshotId)

/-- The claim's reading of `file_is_known`, stated from the spec's words for
comparison with the implementation: the file's content hash appears in some
`Records` row (through any matching `Files` row — exact match or all-zero
MD5 with matching SHA-256) whose snapshot id is neither the main nor the
comparison snapshot id. -/
def fileIsKnownSpec (db : Database) (f : File) : Bool :=
  db.files.any (fun g =>
    decide ((g.md5 = f.md5 ∧ g.sha256 = f.sha256) ∨
            (g.md5 = zeroMd5 ∧ g.sha256 = f.sha256)) &&
    db.records.any (fun r =>
      decide (r.fileId = g.id) &&
      sqlIsNot r.snapshotId db.mainSnapshotId &&
      sqlIsNot r.snapshotId db.comparisonSnapshotId))

/-! ## Concrete example values used to exercise the theorems -/

/-- A small concrete file descriptor. -/
def exFile : File :=
  { sha256 := List.replicate 32 1, md5 := List.replicate 16 2, firstBytes := [],
    flags := FileFlags.utfEncoding, entropyBits := 0, coffHeader := none }

/-- A file node holding `exFile`. -/
def exFileNode : MetaDEntry Unit :=
  MetaDirEntry.mk (DEntry.file exFile) Metadata.meaningless ()

/-- A directory with one child file named `x`. -/
def exDirA : MetaDEntry Unit :=
  MetaDirEntry.mk (DEntry.directory [("x", exFileNode)]) Metadata.meaningless ()

/-- An empty directory node. -/
def exDirB : MetaDEntry Unit :=
  MetaDirEntry.mk (DEntry.directory []) Metadata.meaningless ()

/-- A concrete snapshot with an empty root directory. -/
def exSnapshot : Snapshot :=
  { root := exDirB, source := Source.directory "/r",
    timestamp := { secs := 0, nanos := 0 }, version := none,
    autoruns := none, updates := none }

/-- A database in which two `Files` rows match `exFile`'s hashes — row 1
exactly, row 2 through the all-zero-MD5 rule — and only row 2 is referenced
by a `Records` row. -/
def c2Db : Database :=
  { snapshots := [{ id := 5, date := { secs := 0, nanos := 0 }, version := none, comment := "" }],
    paths := [{ id := 1, path := "/p" }],
    normalizedPaths := [],
    files :=
      [{ id := 1, sha256 := List.replicate 32 1, md5 := List.replicate 16 2, size := 1,
         firstBytes := [], entropyBits := 0, coffHeader := none, flags := FileFlags.utfEncoding },
       { id := 2, sha256 := List.replicate 32 1, md5 := zeroMd5, size := 2,
         firstBytes := [], entropyBits := 0, coffHeader := none, flags := FileFlags.utfEncoding }],
    records := [{ id := 1, snapshotId := 5, pathId := 1, normalizedPathId := none, fileId := 2 }],
    autoruns := [], mainSnapshotId := none, comparisonSnapshotId := none }

/-- A well-formed 88-byte PE image: `MZ`, a PE-offset of 0x40 at 0x3c, the
`PE\0\0` signature at 0x40, and a 20-byte COFF header whose
optional-header-size field (at 0x54) is zero. -/
def peWitnessBytes : List Nat :=
  [0x4D, 0x5A] ++ List.replicate 58 0 ++ [0x40, 0, 0, 0] ++
    [0x50, 0x45, 0, 0] ++ List.replicate 20 0

/-- A 68-byte truncated PE image: `MZ` and a PE-offset of 0x40 pointing at a
valid `PE\0\0` signature, but the file ends right after the signature, so
the size-field read at 0x54 runs past the end of the file. -/
def peCounterBytes : List Nat :=
  [0x4D, 0x5A] ++ List.replicate 58 0 ++ [0x40, 0, 0, 0] ++ [0x50, 0x45, 0, 0]

end Sniff

namespace Sniff

/-! # Theorems -/

/-- Claim C9: for every autoruns evaluation, `should_be_printed` returns
true if and only if the entry's signer verification is anything other than
`Verified`, or the result list is non-empty and is not exactly the singleton
`[UnknownPath]`. -/
theorem c9_should_be_printed_iff (e : AutorunsEvaluation) :
    e.shouldBePrinted = true ↔
      (e.entry.signerVerification ≠ SignerVerification.verified ∨
        (e.results ≠ [] ∧ e.results ≠ [AutorunsEvaluationResult.unknownPath])) := by
  unfold AutorunsEvaluation.shouldBePrinted
  by_cases h : e.entry.signerVerification = SignerVerification.verified
  · by_cases h2 : e.results = [AutorunsEvaluationResult.unknownPath]
    · simp [h, h2]
    · simp [h, h2, List.isEmpty_iff]
  · simp [h]

/-- Claim C10: a system time lying `d` whole seconds and `n` nanoseconds
(`0 < n < 10^9`) before the Unix epoch converts to the timestamp
`secs = -d, nanos = n`; in particular every instant strictly inside the
second before the epoch converts to a timestamp that compares strictly
greater than the epoch's own timestamp. -/
theorem c10_pre_epoch_conversion (d n : Nat) (h1 : 0 < n) (h2 : n < 1000000000) :
    timestampFromSystemNanos (-((d * 1000000000 + n : Nat) : Int)) =
      { secs := -(d : Int), nanos := n } ∧
    Timestamp.cmp (timestampFromSystemNanos (-((n : Nat) : Int)))
      (timestampFromSystemNanos 0) = Ordering.gt := by
  have hd : (0 : Int) ≤ -((d * 1000000000 + n : Nat) : Int) ↔ False := by
    simp only [iff_false]
    omega
  constructor
  · unfold timestampFromSystemNanos
    rw [if_neg (by omega)]
    have ht : ((-(-((d * 1000000000 + n : Nat) : Int))).toNat) = d * 1000000000 + n := by
      omega
    rw [ht]
    have hdiv : (d * 1000000000 + n) / 1000000000 = d := by omega
    have hmod : (d * 1000000000 + n) % 1000000000 = n := by omega
    rw [hdiv, hmod]
    simp
  · unfold timestampFromSystemNanos
    rw [if_neg (by omega), if_pos (by omega)]
    have ht : ((-(-((n : Nat) : Int))).toNat) = n := by omega
    rw [ht]
    have hdiv : n / 1000000000 = 0 := Nat.div_eq_of_lt h2
    have hmod : n % 1000000000 = n := Nat.mod_eq_of_lt h2
    rw [hdiv, hmod]
    unfold Timestamp.cmp
    simp only []
    have hsecs : compare (-(Int.ofNat 0)) (Int.ofNat ((0 : Int).toNat / 1000000000)) =
        Ordering.eq := by decide
    rw [hsecs]
    have : compare n ((0 : Int).toNat % 1000000000) = Ordering.gt := by
      have : ((0 : Int).toNat % 1000000000) = 0 := by decide
      rw [this]
      exact Nat.compare_eq_gt.mpr h1
    rw [this]

/-- Witness for claim C10 at `d = 3`, `n = 5`. -/
theorem c10_pre_epoch_conversion_witness :
    timestampFromSystemNanos (-((3 * 1000000000 + 5 : Nat) : Int)) =
      { secs := -(3 : Int), nanos := 5 } ∧
    Timestamp.cmp (timestampFromSystemNanos (-((5 : Nat) : Int)))
      (timestampFromSystemNanos 0) = Ordering.gt :=
  c10_pre_epoch_conversion 3 5 (by decide) (by decide)

/-- Claim C6 (code bug): the byte sequence `[0xC3]` is an incomplete UTF-8
multi-byte sequence at end of file — the standard UTF-8 decoder rejects
it — yet `File::from_path` leaves the UTF8 flag set, because the end-of-file
fixup clears the UTF-16 and UTF-32 flags for non-empty carry buffers but
never checks the UTF-8 carry buffer.  (The matching buffers of the same
input correctly clear all four UTF-16/UTF-32 flags.) -/
theorem c6_utf8_incomplete_tail_flag :
    (fileFlagsOfBytes [0xC3]).utf8 = true ∧
    utf8AcceptsFull [0xC3] = false ∧
    (fileFlagsOfBytes [0xC3]).utf16be = false ∧
    (fileFlagsOfBytes [0xC3]).utf16le = false ∧
    (fileFlagsOfBytes [0xC3]).utf32be = false ∧
    (fileFlagsOfBytes [0xC3]).utf32le = false := by
  decide

/-- Claim C8: reading a snapshot file fails with a bad-format error when the
header magic is not `snpsht`; with the magic right, version 0 is rejected as
obsolete, any version other than 0, 1 and 2 fails as an unsupported version,
and well-formed version-1 and version-2 bodies succeed (version 1 through
the migration). -/
theorem c8_snapshot_read_dispatch (h : SnapshotFileHeader) (b1 : Option SnapshotV1)
    (b2 : Option Snapshot) :
    (h.magic ≠ "snpsht" →
      snapshotFromFile h b1 b2 = Except.error (SnapshotReadError.badFormat h.magic)) ∧
    (h.magic = "snpsht" → h.version = 0 →
      snapshotFromFile h b1 b2 = Except.error SnapshotReadError.obsoleteVersion) ∧
    (h.magic = "snpsht" → h.version ≠ 0 → h.version ≠ 1 → h.version ≠ 2 →
      snapshotFromFile h b1 b2 = Except.error (SnapshotReadError.unsupportedVersion h.version)) ∧
    (h.magic = "snpsht" → h.version = 1 → ∀ v1, b1 = some v1 →
      snapshotFromFile h b1 b2 = Except.ok (migrateV1 v1)) ∧
    (h.magic = "snpsht" → h.version = 2 → ∀ v2, b2 = some v2 →
      snapshotFromFile h b1 b2 = Except.ok v2) := by
  obtain ⟨magic, version⟩ := h
  refine ⟨?_, ?_, ?_, ?_, ?_⟩
  · intro hm
    simp [snapshotFromFile, hm]
  · intro hm hv
    simp only at hm hv
    subst hm hv
    simp [snapshotFromFile]
  · intro hm hv0 hv1 hv2
    simp only at hm hv0 hv1 hv2
    subst hm
    rcases version with _ | _ | _ | v
    · exact absurd rfl hv0
    · exact absurd rfl hv1
    · exact absurd rfl hv2
    · simp [snapshotFromFile]
  · intro hm hv v1 hb
    simp only at hm hv
    subst hm hv hb
    simp [snapshotFromFile]
  · intro hm hv v2 hb
    simp only at hm hv
    subst hm hv hb
    simp [snapshotFromFile]

/-- Witness for claim C8: a wrong magic fails with `badFormat`, and a
version-2 header with a well-formed body succeeds. -/
theorem c8_snapshot_read_dispatch_witness :
    snapshotFromFile { magic := "wrong", version := 2 } none none =
      Except.error (SnapshotReadError.badFormat "wrong") ∧
    snapshotFromFile { magic := "snpsht", version := 2 } none (some exSnapshot) =
      Except.ok exSnapshot :=
  ⟨(c8_snapshot_read_dispatch { magic := "wrong", version := 2 } none none).1 (by decide),
   (c8_snapshot_read_dispatch { magic := "snpsht", version := 2 } none
       (some exSnapshot)).2.2.2.2 rfl rfl exSnapshot rfl⟩

/-- A successful `read_exact_at` stays within the file and returns the
requested slice. -/
theorem readExactAt_some {bytes : List Nat} {off len : Nat} {x : List Nat}
    (h : readExactAt bytes off len = some x) :
    off + len ≤ bytes.length ∧ x = (bytes.drop off).take len := by
  unfold readExactAt at h
  by_cases hb : off + len ≤ bytes.length
  · rw [if_pos hb] at h
    exact ⟨hb, (Option.some_injective _ h).symm⟩
  · rw [if_neg hb] at h
    exact absurd h (by simp)

/-- Claim C7 (amended): `coff_header` is `Some` iff the first two bytes are
`MZ`, the little-endian u32 at 0x3c can be read and points at `PE\0\0`, and
both the optional-header-size field and the whole extracted region of
`20 + min(optional_header_size, 256)` bytes past the signature lie within
the file; when present, the blob's length is exactly that size. -/
theorem c7_coff_header_extraction (bytes : List Nat) :
    ((coffHeaderOf bytes).isSome = true ↔
      (readExactAt bytes 0 2 = some [0x4D, 0x5A] ∧
        ∃ ob, readExactAt bytes 0x3C 4 = some ob ∧
          readExactAt bytes (u32leOf ob) 4 = some [0x50, 0x45, 0x00, 0x00] ∧
          ∃ lb, readExactAt bytes (u32leOf ob + 4 + 16) 2 = some lb ∧
            u32leOf ob + 4 + 20 + min (u16leOf lb) 256 ≤ bytes.length)) ∧
    (∀ hdr, coffHeaderOf bytes = some hdr →
      ∃ ob lb, readExactAt bytes 0x3C 4 = some ob ∧
        readExactAt bytes (u32leOf ob + 4 + 16) 2 = some lb ∧
        hdr.length = 20 + min (u16leOf lb) 256) := by
  constructor
  · cases h1 : readExactAt bytes 0 2 with
    | none => simp [coffHeaderOf, extractCoffHeaderRes, h1]
    | some m =>
      by_cases hm : m = [0x4D, 0x5A]
      case neg => simp [coffHeaderOf, extractCoffHeaderRes, h1, hm]
      case pos =>
        subst hm
        cases h2 : readExactAt bytes 0x3C 4 with
        | none => simp [coffHeaderOf, extractCoffHeaderRes, h1, h2]
        | some ob =>
          cases h3 : readExactAt bytes (u32leOf ob) 4 with
          | none => simp [coffHeaderOf, extractCoffHeaderRes, h1, h2, h3]
          | some sig =>
            by_cases hs : sig = [0x50, 0x45, 0x00, 0x00]
            case neg => simp [coffHeaderOf, extractCoffHeaderRes, h1, h2, h3, hs]
            case pos =>
              subst hs
              cases h4 : readExactAt bytes (u32leOf ob + 4 + 16) 2 with
              | none => simp [coffHeaderOf, extractCoffHeaderRes, h1, h2, h3, h4]
              | some lb =>
                cases h5 : readExactAt bytes (u32leOf ob + 4) (20 + min (u16leOf lb) 256) with
                | none =>
                  have hb : ¬ (u32leOf ob + 4 + (20 + min (u16leOf lb) 256) ≤ bytes.length) := by
                    intro hle
                    unfold readExactAt at h5
                    rw [if_pos hle] at h5
                    exact absurd h5 (by simp)
                  simp [coffHeaderOf, extractCoffHeaderRes, h1, h2, h3, h4, h5]
                  omega
                | some hdr =>
                  obtain ⟨hb, hx⟩ := readExactAt_some h5
                  simp [coffHeaderOf, extractCoffHeaderRes, h1, h2, h3, h4, h5]
                  omega
  · intro hdr hh
    unfold coffHeaderOf extractCoffHeaderRes at hh
    cases h1 : readExactAt bytes 0 2 with
    | none => simp [h1] at hh
    | some m =>
      by_cases hm : m = [0x4D, 0x5A]
      case neg => simp [h1, hm] at hh
      case pos =>
        subst hm
        cases h2 : readExactAt bytes 0x3C 4 with
        | none => simp [h1, h2] at hh
        | some ob =>
          cases h3 : readExactAt bytes (u32leOf ob) 4 with
          | none => simp [h1, h2, h3] at hh
          | some sig =>
            by_cases hs : sig = [0x50, 0x45, 0x00, 0x00]
            case neg => simp [h1, h2, h3, hs] at hh
            case pos =>
              subst hs
              cases h4 : readExactAt bytes (u32leOf ob + 4 + 16) 2 with
              | none => simp [h1, h2, h3, h4] at hh
              | some lb =>
                cases h5 : readExactAt bytes (u32leOf ob + 4) (20 + min (u16leOf lb) 256) with
                | none => simp [h1, h2, h3, h4, h5] at hh
                | some hdr0 =>
                  obtain ⟨hb, hx⟩ := readExactAt_some h5
                  simp [h1, h2, h3, h4, h5] at hh
                  subst hh
                  refine ⟨ob, lb, rfl, h4, ?_⟩
                  rw [hx, List.length_take, List.length_drop]
                  omega

/-- Counterexample for claim C7 as stated: a 68-byte file that starts with
`MZ` and whose u32 at 0x3c points at a valid `PE\0\0` signature, yet
`coff_header` is `None` because the optional-header-size field at offset 16
past the signature lies beyond the end of the file. -/
theorem c7_counterexample_truncated_pe :
    coffHeaderOf peCounterBytes = none ∧
    readExactAt peCounterBytes 0 2 = some [0x4D, 0x5A] ∧
    readExactAt peCounterBytes 0x3C 4 = some [0x40, 0, 0, 0] ∧
    u32leOf [0x40, 0, 0, 0] = 0x40 ∧
    readExactAt peCounterBytes 0x40 4 = some [0x50, 0x45, 0x00, 0x00] := by
  decide

/-- Witness for claim C7 on a complete 88-byte PE image: the header is
extracted and has the claimed length. -/
theorem c7_coff_header_extraction_witness :
    (coffHeaderOf peWitnessBytes).isSome = true ∧
    ∃ ob lb, readExactAt peWitnessBytes 0x3C 4 = some ob ∧
      readExactAt peWitnessBytes (u32leOf ob + 4 + 16) 2 = some lb ∧
      (List.replicate 20 0).length = 20 + min (u16leOf lb) 256 :=
  ⟨(c7_coff_header_extraction peWitnessBytes).1.mpr
      ⟨by decide, [0x40, 0, 0, 0], by decide, by decide, [0, 0], by decide, by decide⟩,
   (c7_coff_header_extraction peWitnessBytes).2 (List.replicate 20 0) (by decide)⟩

/-! ## Structural lemmas about the generic tree -/

variable {M F S T C C' C'' : Type}

mutual

/-- The modelled `PartialEq` on `DirEntry` agrees with propositional
equality. -/
theorem DEntry.beq_eq_iff [DecidableEq M] [DecidableEq F] [DecidableEq S] [DecidableEq T]
    [DecidableEq C] (a b : DEntry M F S T C) : a.beq b = true ↔ a = b := by
  cases a <;> cases b <;> simp [DEntry.beq]
  case directory.directory l1 l2 => exact entriesBeq_iff l1 l2

/-- The modelled `PartialEq` on `MetaDirEntry` agrees with propositional
equality. -/
theorem MetaDirEntry.beq_iff [DecidableEq M] [DecidableEq F] [DecidableEq S] [DecidableEq T]
    [DecidableEq C] (a b : MetaDirEntry M F S T C) : a.beq b = true ↔ a = b := by
  cases a with
  | mk e1 m1 c1 =>
    cases b with
    | mk e2 m2 c2 =>
      simp [MetaDirEntry.beq, DEntry.beq_eq_iff e1 e2, and_assoc]

/-- Pointwise equality of entry lists agrees with propositional equality. -/
theorem entriesBeq_iff [DecidableEq M] [DecidableEq F] [DecidableEq S] [DecidableEq T]
    [DecidableEq C] (a b : List (String × MetaDirEntry M F S T C)) :
    entriesBeq a b = true ↔ a = b := by
  cases a with
  | nil => cases b <;> simp [entriesBeq]
  | cons h1 r1 =>
    cases b with
    | nil => simp [entriesBeq]
    | cons h2 r2 =>
      obtain ⟨n1, e1⟩ := h1
      obtain ⟨n2, e2⟩ := h2
      simp [entriesBeq, MetaDirEntry.beq_iff e1 e2, entriesBeq_iff r1 r2, and_assoc]

end

/-- The modelled `PartialEq` is reflexive. -/
theorem DEntry.beq_refl [DecidableEq M] [DecidableEq F] [DecidableEq S] [DecidableEq T]
    [DecidableEq C] (e : DEntry M F S T C) : e.beq e = true :=
  (DEntry.beq_eq_iff e e).mpr rfl

/-- The context field after `setCtx`. -/
theorem context_setCtx (e : MetaDirEntry M F S T C) (c : C) : (e.setCtx c).context = c := by
  cases e
  rfl

/-- The context field after `with_context`. -/
theorem context_withContext (e : MetaDirEntry M F S T C) (f : MetaDirEntry M F S T C → C') :
    (e.withContext f).context = f e := by
  cases e
  rfl

/-- Looking a name up in a `with_context`-mapped entry list. -/
theorem findEntry_withContext (l : List (String × MetaDirEntry M F S T C))
    (f : MetaDirEntry M F S T C → C') (n : String) :
    findEntry (withContextEntries l f) n = (findEntry l n).map (fun x => x.withContext f) := by
  induction l with
  | nil => simp [withContextEntries, findEntry]
  | cons hd tl ih =>
    obtain ⟨m, e⟩ := hd
    by_cases hm : m = n <;> simp [withContextEntries, findEntry, hm, ih]

/-- Navigating a path inside a `with_context`-annotated tree reaches the
annotated image of the node the path reaches in the original tree. -/
theorem lookupPath_withContext (f : MetaDirEntry M F S T C → C') (p : List String) :
    ∀ e : MetaDirEntry M F S T C,
      (e.withContext f).lookupPath p = (e.lookupPath p).map (fun x => x.withContext f) := by
  induction p with
  | nil => intro e; simp [MetaDirEntry.lookupPath]
  | cons n rest ih =>
    intro e
    cases e with
    | mk ent md c =>
      cases ent with
      | directory es =>
        simp only [MetaDirEntry.withContext, DEntry.withContextE, MetaDirEntry.lookupPath]
        rw [findEntry_withContext]
        cases findEntry es n with
        | none => simp
        | some child => simp [ih]
      | file f0 => simp [MetaDirEntry.withContext, DEntry.withContextE, MetaDirEntry.lookupPath]
      | symlink s0 => simp [MetaDirEntry.withContext, DEntry.withContextE, MetaDirEntry.lookupPath]
      | other t0 => simp [MetaDirEntry.withContext, DEntry.withContextE, MetaDirEntry.lookupPath]

/-- The tag at any path of a constant-context annotation is the constant
(when the path exists). -/
theorem taggedWith_withContext_const [DecidableEq M] [DecidableEq F] [DecidableEq S]
    [DecidableEq T] (e : MetaDirEntry M F S T Unit) (c : DiffType M F S T)
    (p : List String) (q : DiffType M F S T → Bool) :
    taggedWith (e.withContext (fun _ => c)) p q = ((e.lookupPath p).isSome && q c) := by
  unfold taggedWith
  rw [lookupPath_withContext]
  cases e.lookupPath p with
  | none => simp
  | some x => simp [context_withContext]

mutual

/-- Every context of a constant-context annotation satisfies any predicate
the constant satisfies. -/
theorem allCtx_withContext (e : MetaDirEntry M F S T C) (c : C') (q : C' → Bool)
    (hq : q c = true) : (e.withContext (fun _ => c)).allCtx q = true := by
  cases e with
  | mk ent md c0 =>
    simp only [MetaDirEntry.withContext, MetaDirEntry.allCtx, hq, Bool.true_and]
    exact allCtxE_withContext ent c q hq

/-- Entry-level part of `allCtx_withContext`. -/
theorem allCtxE_withContext (e : DEntry M F S T C) (c : C') (q : C' → Bool)
    (hq : q c = true) : (DEntry.withContextE e (fun _ => c)).allCtxE q = true := by
  cases e with
  | directory es =>
    simp only [DEntry.withContextE, DEntry.allCtxE]
    exact allCtxEntries_withContext es c q hq
  | file f0 => rfl
  | symlink s0 => rfl
  | other t0 => rfl

/-- List-level part of `allCtx_withContext`. -/
theorem allCtxEntries_withContext (l : List (String × MetaDirEntry M F S T C)) (c : C')
    (q : C' → Bool) (hq : q c = true) :
    allCtxEntries q (withContextEntries l (fun _ => c)) = true := by
  cases l with
  | nil => rfl
  | cons hd tl =>
    simp only [withContextEntries, allCtxEntries]
    rw [allCtx_withContext hd.2 c q hq, allCtxEntries_withContext tl c q hq]
    rfl

end

mutual

/-- Re-annotating with a constant context collapses the inner annotation. -/
theorem withContext_withContext_const (e : MetaDirEntry M F S T C)
    (f : MetaDirEntry M F S T C → C') (c : C'') :
    (e.withContext f).withContext (fun _ => c) = e.withContext (fun _ => c) := by
  cases e with
  | mk ent md c0 =>
    simp only [MetaDirEntry.withContext]
    rw [withContextE_withContextE_const ent f c]

/-- Entry-level part of `withContext_withContext_const`. -/
theorem withContextE_withContextE_const (e : DEntry M F S T C)
    (f : MetaDirEntry M F S T C → C') (c : C'') :
    DEntry.withContextE (DEntry.withContextE e f) (fun _ => c) =
      DEntry.withContextE e (fun _ => c) := by
  cases e with
  | directory es =>
    simp only [DEntry.withContextE]
    rw [withContextEntries_withContextEntries_const es f c]
  | file f0 => rfl
  | symlink s0 => rfl
  | other t0 => rfl

/-- List-level part of `withContext_withContext_const`. -/
theorem withContextEntries_withContextEntries_const
    (l : List (String × MetaDirEntry M F S T C)) (f : MetaDirEntry M F S T C → C') (c : C'') :
    withContextEntries (withContextEntries l f) (fun _ => c) =
      withContextEntries l (fun _ => c) := by
  cases l with
  | nil => rfl
  | cons hd tl =>
    simp only [withContextEntries]
    rw [withContext_withContext_const hd.2 f c,
      withContextEntries_withContextEntries_const tl f c]

end

mutual

/-- Annotating a unit-context tree with the unit context is the identity. -/
theorem withContext_unit (e : MetaDirEntry M F S T Unit) :
    e.withContext (fun _ => ()) = e := by
  cases e with
  | mk ent md c0 =>
    simp only [MetaDirEntry.withContext]
    rw [withContextE_unit ent]

/-- Entry-level part of `withContext_unit`. -/
theorem withContextE_unit (e : DEntry M F S T Unit) :
    DEntry.withContextE e (fun _ => ()) = e := by
  cases e with
  | directory es =>
    simp only [DEntry.withContextE]
    rw [withContextEntries_unit es]
  | file f0 => rfl
  | symlink s0 => rfl
  | other t0 => rfl

/-- List-level part of `withContext_unit`. -/
theorem withContextEntries_unit (l : List (String × MetaDirEntry M F S T Unit)) :
    withContextEntries l (fun _ => ()) = l := by
  cases l with
  | nil => rfl
  | cons hd tl =>
    simp only [withContextEntries]
    rw [withContext_unit hd.2, withContextEntries_unit tl]

end

/-- Lookup distributes over list append, preferring the left list. -/
theorem findEntry_append (l1 l2 : List (String × MetaDirEntry M F S T C)) (n : String) :
    findEntry (l1 ++ l2) n =
      match findEntry l1 n with
      | some x => some x
      | none => findEntry l2 n := by
  induction l1 with
  | nil => simp [findEntry]
  | cons hd tl ih =>
    obtain ⟨m, e⟩ := hd
    by_cases hm : m = n <;> simp [findEntry, hm, ih]

/-- Lookup in the former-side loop of `DiffTree::compute`. -/
theorem findEntry_computeFormer [DecidableEq M] [DecidableEq F] [DecidableEq S] [DecidableEq T]
    (fE lE : List (String × MetaDirEntry M F S T Unit)) (n : String) :
    findEntry (computeFormer fE lE) n =
      (findEntry fE n).map (fun fe =>
        match findEntry lE n with
        | some le => DiffTree.compute fe le
        | none => fe.withContext (fun _ => DiffType.removed)) := by
  induction fE with
  | nil => simp [computeFormer, findEntry]
  | cons hd tl ih =>
    obtain ⟨m, e⟩ := hd
    by_cases hm : m = n
    · subst hm
      cases hle : findEntry lE m <;> simp [computeFormer, findEntry, hle]
    · cases hle : findEntry lE m <;> simp [computeFormer, findEntry, hm, ih, hle]

/-- Lookup in the latter-side loop of `DiffTree::compute`. -/
theorem findEntry_addedEntries [DecidableEq M] [DecidableEq F] [DecidableEq S] [DecidableEq T]
    (fE lE : List (String × MetaDirEntry M F S T Unit)) (n : String) :
    findEntry (addedEntries fE lE) n =
      if hasKey fE n then none
      else (findEntry lE n).map (fun le => le.withContext (fun _ => DiffType.added)) := by
  induction lE with
  | nil => cases hk : hasKey fE n <;> simp [addedEntries, findEntry, hk]
  | cons hd tl ih =>
    obtain ⟨m, e⟩ := hd
    by_cases hkm : hasKey fE m
    · have hdrop : addedEntries fE ((m, e) :: tl) = addedEntries fE tl := by
        simp [addedEntries, hkm]
      rw [hdrop, ih]
      by_cases hm : m = n
      · subst hm
        simp [findEntry, hkm]
      · simp [findEntry, hm]
    · have hkeep : addedEntries fE ((m, e) :: tl) =
          (m, e.withContext (fun _ => DiffType.added)) :: addedEntries fE tl := by
        simp [addedEntries, hkm]
      rw [hkeep]
      by_cases hm : m = n
      · subst hm
        simp [findEntry, hkm]
      · simp [findEntry, hm, ih]

/-- Lookup in the child list built by the directory branch of
`DiffTree::compute`: a name in both trees recurses, a former-only name is
the `Removed`-annotated former child, a latter-only name is the
`Added`-annotated latter child. -/
theorem findEntry_computeChildren [DecidableEq M] [DecidableEq F] [DecidableEq S] [DecidableEq T]
    (fE lE : List (String × MetaDirEntry M F S T Unit)) (n : String) :
    findEntry (computeFormer fE lE ++ addedEntries fE lE) n =
      match findEntry fE n, findEntry lE n with
      | some fe, some le => some (DiffTree.compute fe le)
      | some fe, none => some (fe.withContext (fun _ => DiffType.removed))
      | none, some le => some (le.withContext (fun _ => DiffType.added))
      | none, none => none := by
  rw [findEntry_append, findEntry_computeFormer, findEntry_addedEntries]
  cases hf : findEntry fE n <;> cases hl : findEntry lE n <;> simp [hasKey, hf, hl]

/-- The root of a diff tree is never tagged `Added` or `Removed`. -/
theorem compute_context_root [DecidableEq M] [DecidableEq F] [DecidableEq S] [DecidableEq T]
    (a b : MetaDirEntry M F S T Unit) :
    (DiffTree.compute a b).context.isAdded = false ∧
    (DiffTree.compute a b).context.isRemoved = false := by
  rw [DiffTree.compute.eq_def]
  by_cases hab : a.entry.beq b.entry = true
  · by_cases hmd : a.metadata = b.metadata <;>
      simp [hab, hmd, context_withContext, context_setCtx,
        DiffType.isAdded, DiffType.isRemoved]
  · have hab0 : a.entry.beq b.entry = false := by simpa using hab
    cases a with
    | mk ea ma ca =>
      cases b with
      | mk eb mb cb =>
        simp only [MetaDirEntry.entry] at hab0
        cases ea <;> cases eb <;>
          simp [MetaDirEntry.entry, hab0, MetaDirEntry.withContext,
            MetaDirEntry.context, DiffType.isAdded, DiffType.isRemoved]

/-- Diffing a tree with itself annotates every node `Unchanged { None }`. -/
theorem compute_self [DecidableEq M] [DecidableEq F] [DecidableEq S] [DecidableEq T]
    (s : MetaDirEntry M F S T Unit) :
    DiffTree.compute s s = s.withContext (fun _ => DiffType.unchanged none) := by
  rw [DiffTree.compute.eq_def]
  simp [DEntry.beq_refl s.entry]

/-- Navigating one step into a tree ignores the root context. -/
theorem taggedWith_setCtx_cons [DecidableEq M] [DecidableEq F] [DecidableEq S] [DecidableEq T]
    (x : MetaDirEntry M F S T (DiffType M F S T)) (c : DiffType M F S T) (n : String)
    (rest : List String) (q : DiffType M F S T → Bool) :
    taggedWith (x.setCtx c) (n :: rest) q = taggedWith x (n :: rest) q := by
  cases x with
  | mk e m c0 =>
    cases e <;> simp [MetaDirEntry.setCtx, taggedWith, MetaDirEntry.lookupPath]

/-- Navigating one step below a directory node selects a child. -/
theorem taggedWith_dir_cons [DecidableEq M] [DecidableEq F] [DecidableEq S] [DecidableEq T]
    (ch : List (String × MetaDirEntry M F S T (DiffType M F S T))) (m : M)
    (c : DiffType M F S T) (n : String) (rest : List String) (q : DiffType M F S T → Bool) :
    taggedWith (MetaDirEntry.mk (DEntry.directory ch) m c) (n :: rest) q =
      match findEntry ch n with
      | some x => taggedWith x rest q
      | none => false := by
  cases h : findEntry ch n <;> simp [taggedWith, MetaDirEntry.lookupPath, h]

/-- A path is tagged `Added` in `compute a b` exactly when it is tagged
`Removed` in `compute b a` (generic form). -/
theorem compute_add_remove_symm [DecidableEq M] [DecidableEq F] [DecidableEq S] [DecidableEq T]
    (p : List String) :
    ∀ a b : MetaDirEntry M F S T Unit,
      taggedWith (DiffTree.compute a b) p DiffType.isAdded =
        taggedWith (DiffTree.compute b a) p DiffType.isRemoved := by
  induction p with
  | nil =>
    intro a b
    unfold taggedWith
    simp only [MetaDirEntry.lookupPath]
    rw [(compute_context_root a b).1, (compute_context_root b a).2]
  | cons n rest ih =>
    intro a b
    by_cases hab : a.entry.beq b.entry = true
    · have heq : a.entry = b.entry := (DEntry.beq_eq_iff _ _).mp hab
      have hba : b.entry.beq a.entry = true := (DEntry.beq_eq_iff _ _).mpr heq.symm
      have h1 : taggedWith (DiffTree.compute a b) (n :: rest) DiffType.isAdded = false := by
        rw [DiffTree.compute.eq_def]
        by_cases hmd : a.metadata = b.metadata <;>
          simp [hab, hmd, taggedWith_setCtx_cons,
            taggedWith_withContext_const, DiffType.isAdded]
      have h2 : taggedWith (DiffTree.compute b a) (n :: rest) DiffType.isRemoved = false := by
        rw [DiffTree.compute.eq_def]
        by_cases hmd : b.metadata = a.metadata <;>
          simp [hba, hmd, taggedWith_setCtx_cons,
            taggedWith_withContext_const, DiffType.isRemoved]
      rw [h1, h2]
    · have hab0 : a.entry.beq b.entry = false := by simpa using hab
      have hba0 : b.entry.beq a.entry = false := by
        have : ¬ b.entry = a.entry := fun h => hab ((DEntry.beq_eq_iff _ _).mpr h.symm)
        have := fun hb => this ((DEntry.beq_eq_iff _ _).mp hb)
        simpa using this
      cases a with
      | mk ea ma ca =>
        cases b with
        | mk eb mb cb =>
          simp only [MetaDirEntry.entry] at hab0 hba0
          cases ea with
          | directory fE =>
            cases eb with
            | directory lE =>
              have hca : DiffTree.compute (MetaDirEntry.mk (DEntry.directory fE) ma ca)
                  (MetaDirEntry.mk (DEntry.directory lE) mb cb) =
                  MetaDirEntry.mk
                    (DEntry.directory (computeFormer fE lE ++ addedEntries fE lE)) ma
                    (DiffType.childrenChanged (if ma = mb then none else some mb)) := by
                simp [DiffTree.compute, MetaDirEntry.entry, hab0]
              have hcb : DiffTree.compute (MetaDirEntry.mk (DEntry.directory lE) mb cb)
                  (MetaDirEntry.mk (DEntry.directory fE) ma ca) =
                  MetaDirEntry.mk
                    (DEntry.directory (computeFormer lE fE ++ addedEntries lE fE)) mb
                    (DiffType.childrenChanged (if mb = ma then none else some ma)) := by
                simp [DiffTree.compute, MetaDirEntry.entry, hba0]
              rw [hca, hcb, taggedWith_dir_cons, taggedWith_dir_cons,
                findEntry_computeChildren, findEntry_computeChildren]
              cases hf : findEntry fE n <;> cases hl : findEntry lE n
              · simp
              · simp [taggedWith_withContext_const, DiffType.isAdded, DiffType.isRemoved]
              · simp [taggedWith_withContext_const, DiffType.isAdded, DiffType.isRemoved]
              · simp [ih]
            | file f0 =>
              simp [DiffTree.compute, MetaDirEntry.entry, hab0, hba0,
                taggedWith_withContext_const, DiffType.isAdded, DiffType.isRemoved]
            | symlink s0 =>
              simp [DiffTree.compute, MetaDirEntry.entry, hab0, hba0,
                taggedWith_withContext_const, DiffType.isAdded, DiffType.isRemoved]
            | other t0 =>
              simp [DiffTree.compute, MetaDirEntry.entry, hab0, hba0,
                taggedWith_withContext_const, DiffType.isAdded, DiffType.isRemoved]
          | file f0 =>
            cases eb <;>
              simp [DiffTree.compute, MetaDirEntry.entry, hab0, hba0,
                taggedWith_withContext_const, DiffType.isAdded, DiffType.isRemoved]
          | symlink s0 =>
            cases eb <;>
              simp [DiffTree.compute, MetaDirEntry.entry, hab0, hba0,
                taggedWith_withContext_const, DiffType.isAdded, DiffType.isRemoved]
          | other t0 =>
            cases eb <;>
              simp [DiffTree.compute, MetaDirEntry.entry, hab0, hba0,
                taggedWith_withContext_const, DiffType.isAdded, DiffType.isRemoved]

/-- Claim C3: diffing a meta-entry tree with itself yields a tree of the
same shape (equal to the input after erasing the per-node contexts) in which
every node's context is `Unchanged` with `metadata_changed_to = None`. -/
theorem c3_diff_identity (s : MetaDEntry Unit) :
    eraseCtx (DiffTree.compute s s) = s ∧
    (DiffTree.compute s s).allCtx DiffType.isUnchangedNone = true := by
  rw [compute_self]
  constructor
  · unfold eraseCtx
    rw [withContext_withContext_const, withContext_unit]
  · exact allCtx_withContext s (DiffType.unchanged none) DiffType.isUnchangedNone rfl

/-- Claim C4: a path is tagged `Added` in `DiffTree::compute(a, b)` if and
only if it is tagged `Removed` in `DiffTree::compute(b, a)`. -/
theorem c4_diff_membership_symmetry (a b : MetaDEntry Unit) (p : List String) :
    taggedWith (DiffTree.compute a b) p DiffType.isAdded =
      taggedWith (DiffTree.compute b a) p DiffType.isRemoved :=
  compute_add_remove_symm p a b

/-- Claim C5: when diffing two directories, a child name present only in the
former tree appears in the diff as the former child tagged `Removed` on
every node of its subtree, and a child name present only in the latter tree
appears as the latter child tagged `Added` on every node of its subtree. -/
theorem c5_added_removed_propagation (a b : MetaDEntry Unit)
    (fE lE : List (String × MetaDEntry Unit)) (n : String)
    (ha : a.entry = DEntry.directory fE) (hb : b.entry = DEntry.directory lE) :
    (∀ fe, findEntry fE n = some fe → findEntry lE n = none →
      findEntry (childrenOf (DiffTree.compute a b)) n =
        some (fe.withContext (fun _ =>
          (DiffType.removed : DiffType Metadata File Symlink DirEntryType))) ∧
      (fe.withContext (fun _ =>
          (DiffType.removed : DiffType Metadata File Symlink DirEntryType))).allCtx
        DiffType.isRemoved = true) ∧
    (∀ le, findEntry lE n = some le → findEntry fE n = none →
      findEntry (childrenOf (DiffTree.compute a b)) n =
        some (le.withContext (fun _ =>
          (DiffType.added : DiffType Metadata File Symlink DirEntryType))) ∧
      (le.withContext (fun _ =>
          (DiffType.added : DiffType Metadata File Symlink DirEntryType))).allCtx
        DiffType.isAdded = true) := by
  cases a with
  | mk ea ma ca =>
    cases b with
    | mk eb mb cb =>
      simp only [MetaDirEntry.entry] at ha hb
      subst ha hb
      constructor
      · intro fe hfe hle
        have hne : fE ≠ lE := by
          intro h
          subst h
          rw [hfe] at hle
          exact absurd hle (by simp)
        have hab0 : (DEntry.directory (M := Metadata) (F := File) (S := Symlink) (T := DirEntryType) fE).beq
            (DEntry.directory lE) = false := by
          have : ¬ (DEntry.directory (M := Metadata) (F := File) (S := Symlink) (T := DirEntryType) fE).beq
              (DEntry.directory lE) = true := by
            intro h
            have := (DEntry.beq_eq_iff _ _).mp h
            simp at this
            exact hne this
          simpa using this
        have hc : DiffTree.compute (MetaDirEntry.mk (DEntry.directory fE) ma ca)
            (MetaDirEntry.mk (DEntry.directory lE) mb cb) =
            MetaDirEntry.mk
              (DEntry.directory (computeFormer fE lE ++ addedEntries fE lE)) ma
              (DiffType.childrenChanged (if ma = mb then none else some mb)) := by
          simp [DiffTree.compute, MetaDirEntry.entry, hab0]
        rw [hc]
        constructor
        · simp only [childrenOf]
          rw [findEntry_computeChildren, hfe, hle]
        · exact allCtx_withContext fe DiffType.removed DiffType.isRemoved rfl
      · intro le hle hfe
        have hne : fE ≠ lE := by
          intro h
          subst h
          rw [hle] at hfe
          exact absurd hfe (by simp)
        have hab0 : (DEntry.directory (M := Metadata) (F := File) (S := Symlink) (T := DirEntryType) fE).beq
            (DEntry.directory lE) = false := by
          have : ¬ (DEntry.directory (M := Metadata) (F := File) (S := Symlink) (T := DirEntryType) fE).beq
              (DEntry.directory lE) = true := by
            intro h
            have := (DEntry.beq_eq_iff _ _).mp h
            simp at this
            exact hne this
          simpa using this
        have hc : DiffTree.compute (MetaDirEntry.mk (DEntry.directory fE) ma ca)
            (MetaDirEntry.mk (DEntry.directory lE) mb cb) =
            MetaDirEntry.mk
              (DEntry.directory (computeFormer fE lE ++ addedEntries fE lE)) ma
              (DiffType.childrenChanged (if ma = mb then none else some mb)) := by
          simp [DiffTree.compute, MetaDirEntry.entry, hab0]
        rw [hc]
        constructor
        · simp only [childrenOf]
          rw [findEntry_computeChildren, hfe, hle]
        · exact allCtx_withContext le DiffType.added DiffType.isAdded rfl

/-- Witness for claim C5: in the diff of a directory containing only the
file `x` against an empty directory, `x` is the `Removed`-annotated file
node with every context `Removed`; in the reverse diff it is the
`Added`-annotated file node with every context `Added`. -/
theorem c5_added_removed_propagation_witness :
    (findEntry (childrenOf (DiffTree.compute exDirA exDirB)) "x" =
        some (exFileNode.withContext (fun _ =>
          (DiffType.removed : DiffType Metadata File Symlink DirEntryType))) ∧
      (exFileNode.withContext (fun _ =>
          (DiffType.removed : DiffType Metadata File Symlink DirEntryType))).allCtx
        DiffType.isRemoved = true) ∧
    (findEntry (childrenOf (DiffTree.compute exDirB exDirA)) "x" =
        some (exFileNode.withContext (fun _ =>
          (DiffType.added : DiffType Metadata File Symlink DirEntryType))) ∧
      (exFileNode.withContext (fun _ =>
          (DiffType.added : DiffType Metadata File Symlink DirEntryType))).allCtx
        DiffType.isAdded = true) :=
  ⟨(c5_added_removed_propagation exDirA exDirB [("x", exFileNode)] [] "x" rfl rfl).1
      exFileNode rfl rfl,
   (c5_added_removed_propagation exDirB exDirA [] [("x", exFileNode)] "x" rfl rfl).2
      exFileNode rfl rfl⟩

/-! ## Claim C2: file_is_known -/

/-- Claim C2 as implemented (amended): `file_is_known` is true iff the first
`Files` row matching the file — by exact `(md5, sha256)` or by SHA-256 alone
against an all-zero MD5 column — is referenced by some `Records` row, joined
to an existing `Snapshots` row, whose snapshot id is neither the registered
main nor the registered comparison snapshot id. -/
theorem c2_file_is_known_first_match (db : Database) (f : File) :
    fileIsKnown db f = true ↔
      ∃ fid, getFileId db f = some fid ∧
        ∃ r ∈ db.records, r.fileId = fid ∧
          (∃ srow ∈ db.snapshots, r.snapshotId = srow.id) ∧
          sqlIsNot r.snapshotId db.mainSnapshotId = true ∧
          sqlIsNot r.snapshotId db.comparisonSnapshotId = true := by
  unfold fileIsKnown
  cases hf : getFileId db f with
  | none => simp
  | some fid =>
    simp only [List.any_eq_true, Bool.and_eq_true, decide_eq_true_eq]
    constructor
    · rintro ⟨r, hr, ⟨⟨⟨srow, hsrow, hid⟩, hfid⟩, hmain⟩, hcomp⟩
      exact ⟨fid, rfl, r, hr, hfid, ⟨srow, hsrow, hid⟩, hmain, hcomp⟩
    · rintro ⟨fid2, hfid2, r, hr, hfid, ⟨srow, hsrow, hid⟩, hmain, hcomp⟩
      cases hfid2
      exact ⟨r, hr, ⟨⟨⟨srow, hsrow, hid⟩, hfid⟩, hmain⟩, hcomp⟩

/-- Counterexample for claim C2 as stated: in `c2Db` the file's content hash
appears (through the all-zero-MD5 rule) in a `Records` row of a snapshot
that is neither main nor comparison, so the claimed characterization is
true, yet `file_is_known` returns false because `get_file_id` selected the
other (exactly) matching `Files` row, which no record references. -/
theorem c2_counterexample_two_matching_rows :
    fileIsKnown c2Db exFile = false ∧ fileIsKnownSpec c2Db exFile = true := by
  decide

/-! ## Claim C1: insert_snapshot idempotence -/

/-- Finding in an appended list prefers the first list. -/
theorem list_find_append {α : Type} (l1 l2 : List α) (p : α → Bool) :
    (l1 ++ l2).find? p =
      match l1.find? p with
      | some x => some x
      | none => l2.find? p := by
  induction l1 with
  | nil => simp
  | cons hd tl ih =>
    by_cases hp : p hd = true <;> simp [List.find?, hp, ih]

/-- Every member is bounded by the maximum fold. -/
theorem le_foldr_max (x : Int) (l : List Int) (hx : x ∈ l) : x ≤ l.foldr max 0 := by
  induction l with
  | nil => cases hx
  | cons hd tl ih =>
    rcases List.mem_cons.mp hx with h | h
    · subst h
      exact le_max_left _ _
    · exact le_trans (ih h) (le_max_right _ _)

/-- A fresh rowid is strictly larger than every existing id. -/
theorem mem_lt_freshId (x : Int) (l : List Int) (hx : x ∈ l) : x < freshId l := by
  have := le_foldr_max x l hx
  unfold freshId
  omega

/-- File insertion does not touch the `Snapshots` table. -/
theorem insertFileRow_snapshots (db : Database) (f : File) (sz : Nat) :
    (insertFileRow db f sz).2.snapshots = db.snapshots := by
  unfold insertFileRow
  split <;> rfl

/-- File insertion does not touch the `Records` table. -/
theorem insertFileRow_records (db : Database) (f : File) (sz : Nat) :
    (insertFileRow db f sz).2.records = db.records := by
  unfold insertFileRow
  split <;> rfl

/-- Path insertion does not touch the `Snapshots` table. -/
theorem insertPathRow_snapshots (fold : Char → Char) (db : Database) (p : String) :
    (insertPathRow fold db p).2.snapshots = db.snapshots := by
  simp only [insertPathRow, normalizeOsStr]
  split <;> split <;> rfl

/-- Path insertion does not touch the `Records` table. -/
theorem insertPathRow_records (fold : Char → Char) (db : Database) (p : String) :
    (insertPathRow fold db p).2.records = db.records := by
  simp only [insertPathRow, normalizeOsStr]
  split <;> split <;> rfl

/-- Record insertion does not touch the `Snapshots` table. -/
theorem insertRecordRow_snapshots (db : Database) (sid pid : Int) (nid : Option Int)
    (fid : Int) : (insertRecordRow db sid pid nid fid).snapshots = db.snapshots := by
  unfold insertRecordRow
  split <;> rfl

/-- Record insertion under one snapshot id does not change the record count
of any other snapshot id. -/
theorem insertRecordRow_count (db : Database) (sid pid : Int) (nid : Option Int)
    (fid m : Int) (hm : m ≠ sid) :
    recordCountFor (insertRecordRow db sid pid nid fid) m = recordCountFor db m := by
  have hms : ¬ (sid = m) := fun h => hm h.symm
  unfold insertRecordRow
  split
  · rfl
  · simp [recordCountFor, List.filter_append, hms]

/-- Autorun-row insertion does not touch the `Snapshots` table. -/
theorem insertAutorunRow_snapshots (db : Database) (sid pid : Int) (nid : Option Int)
    (fid : Option Int) (name : String) :
    (insertAutorunRow db sid pid nid fid name).snapshots = db.snapshots := by
  unfold insertAutorunRow
  split <;> rfl

/-- Autorun-row insertion does not touch the `Records` table. -/
theorem insertAutorunRow_records (db : Database) (sid pid : Int) (nid : Option Int)
    (fid : Option Int) (name : String) :
    (insertAutorunRow db sid pid nid fid name).records = db.records := by
  unfold insertAutorunRow
  split <;> rfl

/-- Entry insertion does not touch the `Snapshots` table. -/
theorem insertEntry_snapshots (fold : Char → Char) (db : Database) (sid : Int) (p : String)
    (e : MetaDEntry Unit) : (insertEntry fold db sid p e).snapshots = db.snapshots := by
  cases e with
  | mk ent md c =>
    cases ent <;>
      simp [insertEntry, MetaDirEntry.entry, insertRecordRow_snapshots,
        insertPathRow_snapshots, insertFileRow_snapshots]

/-- Entry insertion under one snapshot id does not change the record count
of any other snapshot id. -/
theorem insertEntry_count (fold : Char → Char) (db : Database) (sid : Int) (p : String)
    (e : MetaDEntry Unit) (m : Int) (hm : m ≠ sid) :
    recordCountFor (insertEntry fold db sid p e) m = recordCountFor db m := by
  cases e with
  | mk ent md c =>
    cases ent with
    | file f =>
      simp only [insertEntry, MetaDirEntry.entry, MetaDirEntry.metadata]
      rw [insertRecordRow_count _ _ _ _ _ _ hm]
      unfold recordCountFor
      rw [insertPathRow_records, insertFileRow_records]
    | symlink s0 => rfl
    | directory es => rfl
    | other t0 => rfl

/-- The record-insertion loop does not touch the `Snapshots` table. -/
theorem insertAllEntries_snapshots (fold : Char → Char) (sid : Int)
    (l : List (List String × MetaDEntry Unit)) :
    ∀ db : Database, (insertAllEntries fold db sid l).snapshots = db.snapshots := by
  induction l with
  | nil => intro db; rfl
  | cons hd tl ih =>
    intro db
    have hstep : insertAllEntries fold db sid (hd :: tl) =
        insertAllEntries fold (insertEntry fold db sid (pathString hd.1) hd.2) sid tl := rfl
    rw [hstep, ih, insertEntry_snapshots]

/-- The record-insertion loop does not change other snapshots' record
counts. -/
theorem insertAllEntries_count (fold : Char → Char) (sid : Int)
    (l : List (List String × MetaDEntry Unit)) (m : Int) (hm : m ≠ sid) :
    ∀ db : Database, recordCountFor (insertAllEntries fold db sid l) m = recordCountFor db m := by
  induction l with
  | nil => intro db; rfl
  | cons hd tl ih =>
    intro db
    have hstep : insertAllEntries fold db sid (hd :: tl) =
        insertAllEntries fold (insertEntry fold db sid (pathString hd.1) hd.2) sid tl := rfl
    rw [hstep, ih, insertEntry_count _ _ _ _ _ _ hm]

/-- Autoruns insertion does not touch the `Snapshots` table. -/
theorem insertAutorunEntry_snapshots (fold : Char → Char) (db : Database) (sid : Int)
    (root : MetaDEntry Unit) (e : AutorunsEntry) :
    (insertAutorunEntry fold db sid root e).snapshots = db.snapshots := by
  unfold insertAutorunEntry
  cases e.imagePath with
  | none => rfl
  | some raw => simp [insertAutorunRow_snapshots, insertPathRow_snapshots]

/-- Autoruns insertion does not touch the `Records` table. -/
theorem insertAutorunEntry_records (fold : Char → Char) (db : Database) (sid : Int)
    (root : MetaDEntry Unit) (e : AutorunsEntry) :
    (insertAutorunEntry fold db sid root e).records = db.records := by
  unfold insertAutorunEntry
  cases e.imagePath with
  | none => rfl
  | some raw => simp [insertAutorunRow_records, insertPathRow_records]

/-- The autoruns loop does not touch the `Snapshots` table. -/
theorem insertAllAutoruns_snapshots (fold : Char → Char) (sid : Int)
    (root : MetaDEntry Unit) (l : List AutorunsEntry) :
    ∀ db : Database, (insertAllAutoruns fold db sid root l).snapshots = db.snapshots := by
  induction l with
  | nil => intro db; rfl
  | cons hd tl ih =>
    intro db
    have hstep : insertAllAutoruns fold db sid root (hd :: tl) =
        insertAllAutoruns fold (insertAutorunEntry fold db sid root hd) sid root tl := rfl
    rw [hstep, ih, insertAutorunEntry_snapshots]

/-- The autoruns loop does not touch the `Records` table. -/
theorem insertAllAutoruns_records (fold : Char → Char) (sid : Int)
    (root : MetaDEntry Unit) (l : List AutorunsEntry) :
    ∀ db : Database, (insertAllAutoruns fold db sid root l).records = db.records := by
  induction l with
  | nil => intro db; rfl
  | cons hd tl ih =>
    intro db
    have hstep : insertAllAutoruns fold db sid root (hd :: tl) =
        insertAllAutoruns fold (insertAutorunEntry fold db sid root hd) sid root tl := rfl
    rw [hstep, ih, insertAutorunEntry_records]

/-- When the snapshot row is found in the inserted state and its record
count matches the snapshot's file count, `get_snapshot_id` reports it. -/
theorem getSnapshotId_of_count (D : Database) (s : Snapshot) (sid0 : Int)
    (hsl : (snapLookup D s.timestamp s.version).map (fun r => r.id) = some sid0)
    (hcount : recordCountFor D sid0 = countFiles s) :
    getSnapshotId D s = some sid0 := by
  cases hf : snapLookup D s.timestamp s.version with
  | none => rw [hf] at hsl; exact absurd hsl (by simp)
  | some r1 =>
    rw [hf] at hsl
    simp only [Option.map_some'] at hsl
    have hid : r1.id = sid0 := by simpa using hsl
    unfold getSnapshotId
    simp only [hf]
    rw [hid, if_pos hcount]

/-- The common continuation of the idempotence argument after the
`Snapshots` row insertion: the id returned by the first `insert_snapshot`
call is the id its final state's `(date, version)` lookup reports, given
the record-count side condition. -/
theorem c1_finish (fold : Char → Char) (db dbR : Database) (s : Snapshot) (c : String)
    (rid sid0 : Int)
    (hg : getSnapshotId db s = none)
    (hrow : insertSnapshotRow db s.timestamp s.version c = (rid, dbR))
    (hrecR : dbR.records = db.records)
    (hsl : (snapLookup ((insertSnapshot fold db s c).2) s.timestamp s.version).map
        (fun r => r.id) = some sid0)
    (hcount : recordCountFor ((insertSnapshot fold db s c).2) sid0 = countFiles s)
    (hcase : (∃ r1, snapLookup dbR s.timestamp s.version = some r1 ∧ r1.id = rid) ∨
      (∃ r1, snapLookup dbR s.timestamp s.version = some r1 ∧ r1.id ≠ rid ∧
        recordCountFor db r1.id ≠ countFiles s)) :
    (insertSnapshot fold db s c).1 = sid0 := by
  cases ha : s.autoruns with
  | none =>
    have hD : insertSnapshot fold db s c =
        (rid, insertAllEntries fold dbR rid s.root.walk) := by
      simp [insertSnapshot, hg, ha, hrow]
    rw [hD] at hsl hcount ⊢
    have hsnap : (insertAllEntries fold dbR rid s.root.walk).snapshots = dbR.snapshots :=
      insertAllEntries_snapshots fold rid s.root.walk dbR
    have hlook : snapLookup (insertAllEntries fold dbR rid s.root.walk) s.timestamp s.version =
        snapLookup dbR s.timestamp s.version := by
      unfold snapLookup
      rw [hsnap]
    rw [hlook] at hsl
    rcases hcase with ⟨r1, hr1, hr1id⟩ | ⟨r1, hr1, hr1ne, hr1count⟩
    · rw [hr1] at hsl
      simp only [Option.map_some'] at hsl
      have : r1.id = sid0 := by simpa using hsl
      simp [← this, hr1id]
    · rw [hr1] at hsl
      simp only [Option.map_some'] at hsl
      have hids : r1.id = sid0 := by simpa using hsl
      have hcnt2 : recordCountFor (insertAllEntries fold dbR rid s.root.walk) r1.id =
          recordCountFor dbR r1.id := insertAllEntries_count fold rid s.root.walk r1.id hr1ne dbR
      have hcnt3 : recordCountFor dbR r1.id = recordCountFor db r1.id := by
        unfold recordCountFor
        rw [hrecR]
      rw [hids] at hcnt2 hcnt3
      rw [hcount] at hcnt2
      rw [hids] at hr1count
      exact absurd (hcnt2.trans hcnt3).symm hr1count
  | some ar =>
    have hD : insertSnapshot fold db s c =
        (rid, insertAllAutoruns fold (insertAllEntries fold dbR rid s.root.walk) rid
          s.root ar.entries) := by
      simp [insertSnapshot, hg, ha, hrow]
    rw [hD] at hsl hcount ⊢
    have hsnap : (insertAllAutoruns fold (insertAllEntries fold dbR rid s.root.walk) rid
        s.root ar.entries).snapshots = dbR.snapshots := by
      rw [insertAllAutoruns_snapshots fold rid s.root ar.entries,
        insertAllEntries_snapshots fold rid s.root.walk dbR]
    have hlook : snapLookup (insertAllAutoruns fold (insertAllEntries fold dbR rid
        s.root.walk) rid s.root ar.entries) s.timestamp s.version =
        snapLookup dbR s.timestamp s.version := by
      unfold snapLookup
      rw [hsnap]
    rw [hlook] at hsl
    rcases hcase with ⟨r1, hr1, hr1id⟩ | ⟨r1, hr1, hr1ne, hr1count⟩
    · rw [hr1] at hsl
      simp only [Option.map_some'] at hsl
      have : r1.id = sid0 := by simpa using hsl
      simp [← this, hr1id]
    · rw [hr1] at hsl
      simp only [Option.map_some'] at hsl
      have hids : r1.id = sid0 := by simpa using hsl
      have hcnt1 : recordCountFor (insertAllAutoruns fold (insertAllEntries fold dbR rid
          s.root.walk) rid s.root ar.entries) r1.id =
          recordCountFor (insertAllEntries fold dbR rid s.root.walk) r1.id := by
        unfold recordCountFor
        rw [insertAllAutoruns_records fold rid s.root ar.entries]
      have hcnt2 : recordCountFor (insertAllEntries fold dbR rid s.root.walk) r1.id =
          recordCountFor dbR r1.id := insertAllEntries_count fold rid s.root.walk r1.id hr1ne dbR
      have hcnt3 : recordCountFor dbR r1.id = recordCountFor db r1.id := by
        unfold recordCountFor
        rw [hrecR]
      rw [hids] at hcnt1 hcnt2 hcnt3
      rw [hcount] at hcnt1
      rw [hids] at hr1count
      exact absurd ((hcnt1.trans hcnt2).trans hcnt3).symm hr1count

/-- The id returned by `insert_snapshot` is the one that a `(date, version)`
lookup on the resulting state reports, under the record-count side
condition. -/
theorem insertSnapshot_id_eq (fold : Char → Char) (db : Database) (s : Snapshot) (c : String)
    (sid0 : Int)
    (hsl : (snapLookup ((insertSnapshot fold db s c).2) s.timestamp s.version).map
        (fun r => r.id) = some sid0)
    (hcount : recordCountFor ((insertSnapshot fold db s c).2) sid0 = countFiles s) :
    (insertSnapshot fold db s c).1 = sid0 := by
  cases hg : getSnapshotId db s with
  | some j =>
    have hD : insertSnapshot fold db s c = (j, db) := by
      simp [insertSnapshot, hg]
    rw [hD] at hsl ⊢
    cases hf : snapLookup db s.timestamp s.version with
    | none => simp [getSnapshotId, hf] at hg
    | some r =>
      rw [hf] at hsl
      simp only [Option.map_some'] at hsl
      have hids : r.id = sid0 := by simpa using hsl
      unfold getSnapshotId at hg
      simp only [hf] at hg
      by_cases hcnt : recordCountFor db r.id = countFiles s
      · rw [if_pos hcnt] at hg
        have : r.id = j := by simpa using hg
        simp [← this, hids]
      · rw [if_neg hcnt] at hg
        exact absurd hg (by simp)
  | none =>
    by_cases hc : db.snapshots.any (fun r =>
        decide (r.date = s.timestamp ∧ r.version = s.version) && s.version.isSome) = true
    · obtain ⟨r0, hr0mem, hr0p⟩ := List.any_eq_true.mp hc
      have hr0pred : (fun r =>
          decide (r.date = s.timestamp ∧ r.version = s.version)) r0 = true := by
        simp only [Bool.and_eq_true, decide_eq_true_eq] at hr0p
        simp [hr0p.1.1, hr0p.1.2]
      have hfind : (db.snapshots.find? (fun r =>
          decide (r.date = s.timestamp ∧ r.version = s.version))).isSome := by
        rw [List.find?_isSome]
        exact ⟨r0, hr0mem, hr0pred⟩
      obtain ⟨rf, hrf⟩ := Option.isSome_iff_exists.mp hfind
      have hrow : insertSnapshotRow db s.timestamp s.version c = (rf.id, db) := by
        unfold insertSnapshotRow
        rw [if_pos hc, hrf]
      refine c1_finish fold db db s c rf.id sid0 hg hrow rfl hsl hcount ?_
      exact Or.inl ⟨rf, hrf, rfl⟩
    · have hrow : insertSnapshotRow db s.timestamp s.version c =
          (freshId (db.snapshots.map (fun r => r.id)),
           { db with snapshots := db.snapshots ++
             [{ id := freshId (db.snapshots.map (fun r => r.id)), date := s.timestamp,
                version := s.version, comment := c }] }) := by
        unfold insertSnapshotRow
        rw [if_neg hc]
      set newRow : SnapshotRow :=
        { id := freshId (db.snapshots.map (fun r => r.id)), date := s.timestamp,
          version := s.version, comment := c } with hnew
      cases hfl : db.snapshots.find? (fun r =>
          decide (r.date = s.timestamp ∧ r.version = s.version)) with
      | some mrow =>
        have hmlt : mrow.id < freshId (db.snapshots.map (fun r => r.id)) := by
          have hmem : mrow ∈ db.snapshots := List.mem_of_find?_eq_some hfl
          exact mem_lt_freshId mrow.id _ (List.mem_map_of_mem _ hmem)
        have hmne : mrow.id ≠ freshId (db.snapshots.map (fun r => r.id)) := by omega
        have hlookR : snapLookup { db with snapshots := db.snapshots ++ [newRow] }
            s.timestamp s.version = some mrow := by
          unfold snapLookup
          simp only []
          rw [list_find_append, hfl]
        have hcountm : recordCountFor db mrow.id ≠ countFiles s := by
          intro hcnt
          have hsome : getSnapshotId db s = some mrow.id := by
            unfold getSnapshotId
            simp only [snapLookup, hfl, if_pos hcnt]
          rw [hg] at hsome
          exact absurd hsome (by simp)
        refine c1_finish fold db _ s c _ sid0 hg hrow rfl hsl hcount ?_
        exact Or.inr ⟨mrow, hlookR, hmne, hcountm⟩
      | none =>
        have hlookR : snapLookup { db with snapshots := db.snapshots ++ [newRow] }
            s.timestamp s.version = some newRow := by
          unfold snapLookup
          simp only []
          rw [list_find_append, hfl]
          simp [hnew]
        refine c1_finish fold db _ s c _ sid0 hg hrow rfl hsl hcount ?_
        exact Or.inl ⟨newRow, hlookR, rfl⟩

/-- Claim C1: inserting the same snapshot twice in succession returns the
same snapshot id both times and leaves the row counts of all six tables
unchanged after the second call, provided the record count registered for
the snapshot matches the number of file nodes in it. -/
theorem c1_insert_snapshot_idempotent (fold : Char → Char) (db : Database) (s : Snapshot)
    (c : String)
    (h : ∃ sid, (snapLookup ((insertSnapshot fold db s c).2) s.timestamp s.version).map
        (fun r => r.id) = some sid ∧
      recordCountFor ((insertSnapshot fold db s c).2) sid = countFiles s) :
    (insertSnapshot fold ((insertSnapshot fold db s c).2) s c).1 =
      (insertSnapshot fold db s c).1 ∧
    tableRowCounts (insertSnapshot fold ((insertSnapshot fold db s c).2) s c).2 =
      tableRowCounts ((insertSnapshot fold db s c).2) := by
  obtain ⟨sid0, hsl, hcount⟩ := h
  have hget : getSnapshotId ((insertSnapshot fold db s c).2) s = some sid0 :=
    getSnapshotId_of_count _ _ _ hsl hcount
  have hid : (insertSnapshot fold db s c).1 = sid0 :=
    insertSnapshot_id_eq fold db s c sid0 hsl hcount
  have hsecond : ∀ D : Database, getSnapshotId D s = some sid0 →
      insertSnapshot fold D s c = (sid0, D) := by
    intro D hD
    unfold insertSnapshot
    rw [hD]
  rw [hsecond _ hget, hid]
  exact ⟨rfl, rfl⟩

/-- Witness for claim C1: inserting a concrete snapshot twice into an empty
database returns id 1 both times and leaves all table sizes unchanged. -/
theorem c1_insert_snapshot_idempotent_witness :
    (insertSnapshot (fun ch => ch) ((insertSnapshot (fun ch => ch) emptyDb exSnapshot
        "c").2) exSnapshot "c").1 =
      (insertSnapshot (fun ch => ch) emptyDb exSnapshot "c").1 ∧
    tableRowCounts (insertSnapshot (fun ch => ch) ((insertSnapshot (fun ch => ch) emptyDb
        exSnapshot "c").2) exSnapshot "c").2 =
      tableRowCounts ((insertSnapshot (fun ch => ch) emptyDb exSnapshot "c").2) :=
  c1_insert_snapshot_idempotent (fun ch => ch) emptyDb exSnapshot "c"
    ⟨1, by decide, by decide⟩

end Sniff
